import Mathlib

/-!
Verification of the report-format lifecycle manager
(`src/manage_sql_report_formats.c`) against its natural-language
specification.  The C functions are shallowly embedded as Lean
definitions: fallible system calls (mkstemp, g_file_set_contents,
g_spawn_sync, mkdir, chmod, ...) are modelled by explicit outcome
fields in environment structures, the SQL tables by lists of row
structures, and machine integers by `Int` with the `long long`
extremes as explicit constants.
-/

namespace ReportFormats

/-- Trust states of a report format: 1 yes, 2 no, 3 unknown
(`TRUST_YES` / `TRUST_NO` / `TRUST_UNKNOWN`). -/
inductive Trust where
  | yes
  | no
  | unknown
  deriving DecidableEq, Repr

/-- The numeric value stored in the `trust` column (1 yes, 2 no, 3 unknown,
per the doc comment of `report_format_trust`). -/
def Trust.code : Trust → Int
  | .yes => 1
  | .no => 2
  | .unknown => 3

/-- `LLONG_MIN`, the sentinel marking an unset minimum bound. -/
def LLONG_MIN : Int := -(2 ^ 63)

/-- `LLONG_MAX`, the sentinel marking an unset maximum bound. -/
def LLONG_MAX : Int := 2 ^ 63 - 1

/-- `WIFEXITED` on a raw wait-status word (glibc: low seven bits zero). -/
def wifexited (status : Nat) : Bool := status % 128 == 0

/-- `WEXITSTATUS` on a raw wait-status word (glibc: bits 8..15). -/
def wexitstatus (status : Nat) : Nat := status / 256 % 256

/-- Outcome of the `g_spawn_sync` call in `verify_signature`.  When the
spawn itself fails, `g_spawn_sync` returns FALSE without touching the
`exit_status` out-argument, so the local variable `exit_status` keeps
its prior indeterminate value; that stale word is carried by the
`spawnFail` constructor because the code still applies `WEXITSTATUS`
to it. -/
inductive SpawnOutcome where
  | spawnFail (stale : Nat)
  | spawned (status : Nat)
  deriving DecidableEq, Repr

/-- Environment of one `verify_signature` call: whether each fallible
step (two `mkstemp` calls, two `g_file_set_contents` calls) succeeds,
and the spawn outcome. -/
structure VerifyEnv where
  mkstempInstallerOk : Bool
  writeInstallerOk : Bool
  mkstempSignatureOk : Bool
  writeSignatureOk : Bool
  spawn : SpawnOutcome
  deriving DecidableEq, Repr

/-- Observable outcome of `verify_signature`: the C return value, the
value left in `*trust`, and whether each of the two temporary files
still exists on disk after the function returns. -/
structure VerifyOutcome where
  ret : Int
  trust : Trust
  installerFileLeft : Bool
  signatureFileLeft : Bool
  deriving DecidableEq, Repr

/-- Shallow embedding of `verify_signature` (manage_sql_report_formats.c
lines 191-304).  `trust0` is the value held by the caller's trust
variable on entry; the early `-1` exits return without writing `*trust`.
The early exits close the file descriptors but never call `g_remove`,
so files already created by `mkstemp` stay on disk; only the code path
that reaches `g_spawn_sync` removes both files (lines 300-301). -/
def verify_signature (env : VerifyEnv) (trust0 : Trust) : VerifyOutcome :=
  if !env.mkstempInstallerOk then
    { ret := -1, trust := trust0
      installerFileLeft := false, signatureFileLeft := false }
  else if !env.writeInstallerOk then
    { ret := -1, trust := trust0
      installerFileLeft := true, signatureFileLeft := false }
  else if !env.mkstempSignatureOk then
    { ret := -1, trust := trust0
      installerFileLeft := true, signatureFileLeft := false }
  else if !env.writeSignatureOk then
    { ret := -1, trust := trust0
      installerFileLeft := true, signatureFileLeft := true }
  else
    let t :=
      match env.spawn with
      | .spawnFail stale =>
          if wexitstatus stale == 1 then Trust.no else Trust.unknown
      | .spawned status =>
          if !wifexited status || wexitstatus status != 0 then
            if wexitstatus status == 1 then Trust.no else Trust.unknown
          else
            Trust.yes
    { ret := 0, trust := t
      installerFileLeft := false, signatureFileLeft := false }

/-- All four temporary-file steps of `verify_signature` succeed, so the
call reaches `g_spawn_sync`. -/
def VerifyEnv.tempsOk (env : VerifyEnv) : Prop :=
  env.mkstempInstallerOk = true ∧ env.writeInstallerOk = true ∧
    env.mkstempSignatureOk = true ∧ env.writeSignatureOk = true

/-- C3, counterexample: the claim says a spawn failure always yields trust
Unknown, but `exit_status` is uninitialized when `g_spawn_sync` fails, and
a stale word whose `WEXITSTATUS` is 1 (for example 256) makes the
classifier report trust No instead. -/
theorem c3_spawnfail_not_unknown :
    (verify_signature ⟨true, true, true, true, .spawnFail 256⟩
        Trust.unknown).trust = Trust.no ∧ Trust.no ≠ Trust.unknown := by
  constructor
  · rfl
  · decide

/-- C3 (amended): when the temporary files are set up successfully, the
classifier maps a normal exit with status 0 to Yes, any outcome whose
`WEXITSTATUS` is 1 (the explicit signature-invalid code) to No, every
other abnormal exit or nonzero exit code to Unknown, and a spawn failure
to Unknown unless the stale status word decodes to exit code 1 (then No);
in all of these cases `verify_signature` returns 0 (success) to its
caller rather than an error. -/
theorem c3_classification (env : VerifyEnv) (t0 : Trust)
    (hok : env.tempsOk) :
    (∀ s, env.spawn = .spawned s → wifexited s = true → wexitstatus s = 0 →
      (verify_signature env t0).trust = Trust.yes) ∧
    (∀ s, env.spawn = .spawned s → wexitstatus s = 1 →
      (verify_signature env t0).trust = Trust.no) ∧
    (∀ s, env.spawn = .spawned s → wexitstatus s ≠ 1 →
      (wifexited s = false ∨ wexitstatus s ≠ 0) →
      (verify_signature env t0).trust = Trust.unknown) ∧
    (∀ stale, env.spawn = .spawnFail stale →
      (verify_signature env t0).trust =
        (if wexitstatus stale = 1 then Trust.no else Trust.unknown)) ∧
    (verify_signature env t0).ret = 0 := by
  obtain ⟨h1, h2, h3, h4⟩ := hok
  refine ⟨?_, ?_, ?_, ?_, ?_⟩
  · intro s hs hex hst
    simp [verify_signature, h1, h2, h3, h4, hs, hex, hst]
  · intro s hs hst
    simp [verify_signature, h1, h2, h3, h4, hs, hst]
  · intro s hs hne hab
    rcases hab with hab | hab <;>
      simp [verify_signature, h1, h2, h3, h4, hs, hne, hab]
  · intro stale hs
    by_cases hw : wexitstatus stale = 1 <;>
      simp [verify_signature, h1, h2, h3, h4, hs, hw]
  · simp [verify_signature, h1, h2, h3, h4]

/-- C3 witness: concrete instantiation with a normal exit of status 0. -/
theorem c3_classification_witness :
    (verify_signature ⟨true, true, true, true, .spawned 0⟩
        Trust.unknown).trust = Trust.yes ∧
    (verify_signature ⟨true, true, true, true, .spawned 0⟩
        Trust.unknown).ret = 0 := by
  have h := c3_classification ⟨true, true, true, true, .spawned 0⟩
    Trust.unknown ⟨rfl, rfl, rfl, rfl⟩
  exact ⟨h.1 0 rfl (by decide) (by decide), h.2.2.2.2⟩

/-- C4, counterexample: the claim says both temporary files are removed on
every exit path, but when writing the installer temporary file fails the
function returns -1 leaving the installer file (already created by
`mkstemp`) on disk. -/
theorem c4_write_failure_leaks_installer_file :
    (verify_signature ⟨true, false, true, true, .spawned 0⟩
        Trust.unknown).installerFileLeft = true ∧
    (verify_signature ⟨true, false, true, true, .spawned 0⟩
        Trust.unknown).ret = -1 := by
  exact ⟨rfl, rfl⟩

/-- C4 (amended): both temporary files are removed on every path that
reaches `g_spawn_sync`, including spawn failure and every classification
outcome; on the earlier error exits the files already created are left
behind: the installer file leaks exactly when it was created and any of
the three following steps fails, and the signature file leaks exactly
when it was created and writing it fails. -/
theorem c4_tempfile_cleanup (env : VerifyEnv) (t0 : Trust) :
    (verify_signature env t0).installerFileLeft =
      (env.mkstempInstallerOk &&
        !(env.writeInstallerOk && env.mkstempSignatureOk &&
          env.writeSignatureOk)) ∧
    (verify_signature env t0).signatureFileLeft =
      (env.mkstempInstallerOk && env.writeInstallerOk &&
        env.mkstempSignatureOk && !env.writeSignatureOk) := by
  obtain ⟨mi, wi, ms, ws, sp⟩ := env
  cases mi <;> cases wi <;> cases ms <;> cases ws <;>
    simp [verify_signature]

/-- Environment of a `modify_report_format` call: the ambient caller
identity (`current_credentials.uuid`, NULL for the unauthenticated /
system context), the ACL answer, the outcome of
`find_report_format_with_permission`, whether the target is predefined,
and the result of `set_report_format_param` when a parameter is set. -/
structure ModifyEnv where
  currentUserUuid : Option String
  mayModify : Bool
  findFails : Bool
  found : Bool
  predefined : Bool
  setParamResult : Int
  deriving DecidableEq, Repr

/-- Result of `modify_report_format`: the return code and whether the
field updates (name / summary / active / predefined flag) were applied. -/
structure ModifyOutcome where
  ret : Int
  updatesApplied : Bool
  deriving DecidableEq, Repr

/-- Shallow embedding of `modify_report_format` (lines 1382-1457).  The
guard for predefined formats is the one at lines 1421-1428: it rolls
back with 99 exactly when `current_credentials.uuid` is NULL *and* the
format is predefined; any authenticated caller passes it.  Result codes
of `set_report_format_param` are remapped 1 to 3 and 2 to 4. -/
def modify_report_format (env : ModifyEnv) (report_format_id : Option String)
    (predefined_arg : Option String) (param_name : Option String) :
    ModifyOutcome :=
  if report_format_id = none then ⟨2, false⟩
  else if (match predefined_arg with
           | some p => decide (p ≠ "0" ∧ p ≠ "1")
           | none => false) then ⟨5, false⟩
  else if !env.mayModify then ⟨99, false⟩
  else if env.findFails then ⟨-1, false⟩
  else if !env.found then ⟨1, false⟩
  else if env.currentUserUuid = none ∧ env.predefined then ⟨99, false⟩
  else if param_name.isSome then
    let r := env.setParamResult
    ⟨if r = 1 then 3 else if r = 2 then 4 else r, true⟩
  else ⟨0, true⟩

/-- C2: the code's own comment (line 1421: it should only be possible to
modify predefined report formats from the command line, i.e. the
unauthenticated context) and the spec demand refusal for authenticated
callers, but the guard tests `current_credentials.uuid == NULL`, so an
authenticated caller modifying a predefined format passes the guard and
succeeds, while the unauthenticated / system context is the one refused
with 99 (and the `assert (current_credentials.uuid)` at line 1399 makes
the refusing branch unreachable in asserting builds). -/
theorem c2_predefined_guard_inverted :
    modify_report_format
        ⟨some "b9f72b00-4f0c-4c" , true, false, true, true, 0⟩
        (some "rf-uuid") none none = ⟨0, true⟩ ∧
    modify_report_format ⟨none, true, false, true, true, 0⟩
        (some "rf-uuid") none none = ⟨99, false⟩ := by
  exact ⟨rfl, rfl⟩

/-! Template composition (`apply_report_format`, lines 4120-4341).

The recursion is embedded with an explicit fuel argument; the value
`ApplyRes.exhausted` marks fuel running out and never occurs for
sufficient fuel (proved below), which is the termination argument of
the C recursion.  Reads of the metadata repository are modelled by the
`RFDB` table; a format that `find_report_format_with_permission` cannot
see (missing or not reachable under the caller's permission) is simply
absent from the table.  Temporary directory and file creation, manifest
serialization and the generator invocation are abstracted: the C code
does not even inspect the return value of `run_report_format_script`
(line 4314), so the returned artifact is modelled by the `AOut` tree
recording the format id and the collected subreports. -/

/-- Metadata visible to `apply_report_format` for one report format:
the active flag and the value of its report-format-list parameter
(`NULL` when the format has no such parameter). -/
structure RFInfo where
  active : Bool
  deps : Option String
  deriving DecidableEq, Repr

/-- The report format table as seen through
`find_report_format_with_permission`. -/
structure RFDB where
  formats : List (String × RFInfo)
  deriving DecidableEq, Repr

/-- Look a report format up by uuid. -/
def RFDB.lookup (db : RFDB) (id : String) : Option RFInfo :=
  (db.formats.find? (fun pr => pr.1 == id)).map Prod.snd

/-- Splitting worker over the character list: cut at every comma. -/
def gSplitAux : List Char → List Char → List String
  | [], acc => [String.mk acc]
  | c :: rest, acc =>
    if c = ',' then String.mk acc :: gSplitAux rest []
    else gSplitAux rest (acc ++ [c])

/-- `g_strsplit (s, ",", -1)`: splitting the empty string yields an
empty vector, otherwise split at every comma. -/
def gSplit (s : String) : List String :=
  if s = "" then [] else gSplitAux s.data []

/-- Artifact returned by a successful `apply_report_format` call: the
format that generated it and the subreport table (dependency id with
its artifact, in collection order). -/
inductive AOut where
  | mk (id : String) (subs : List (String × AOut))

/-- Result of one `apply_report_format` call: fuel ran out (artifact of
the embedding only), NULL, or a generated artifact. -/
inductive ApplyRes where
  | exhausted
  | noOutput
  | output (o : AOut)

/-- State of the dependency loop of `apply_report_format`: the
`subreports` table in collection order, the current `*used_rfps` chain,
and whether the embedding ran out of fuel. -/
def DepState : Type := List (String × AOut) × List String × Bool

/-- One iteration of the dependency loop of `apply_report_format`
(lines 4194-4228): skip the dependency when it is already in the
`subreports` hash table, otherwise recurse (threading the mutated
chain through) and record the artifact only when the recursive call
returned one. -/
def applyStep (recurse : String → List String → ApplyRes × List String)
    (st : DepState) (dep : String) : DepState :=
  if st.2.2 then st
  else if st.1.any (fun pr => pr.1 == dep) then st
  else
    match recurse dep st.2.1 with
    | (.exhausted, u) => (st.1, u, true)
    | (.noOutput, u) => (st.1, u, false)
    | (.output o, u) => (st.1 ++ [(dep, o)], u, false)

/-- Shallow embedding of `apply_report_format`.  The second component is
the final value of the caller's `*used_rfps` chain.  The in-progress
chain grows by `g_list_append` before the dependency loop (line 4188)
and shrinks by `g_list_remove` after it (line 4232). -/
def apply_report_format (db : RFDB) :
    Nat → String → List String → ApplyRes × List String
  | 0, _, used => (.exhausted, used)
  | Nat.succ fuel, id, used =>
    if id ∈ used then (.noOutput, used)
    else
      match db.lookup id with
      | none => (.noOutput, used)
      | some info =>
        if !info.active then (.noOutput, used)
        else
          match info.deps with
          | none => (.output (.mk id []), used)
          | some depstr =>
            let st := (gSplit depstr).foldl
              (applyStep (fun d u => apply_report_format db fuel d u))
              ([], used ++ [id], false)
            let chain := st.2.1.erase id
            if st.2.2 then (.exhausted, chain)
            else (.output (.mk id st.1), chain)

/-- Folding a chain-preserving step function preserves the chain
component of the loop state. -/
theorem foldl_chain_eq
    (f : DepState → String → DepState)
    (hf : ∀ st b, (f st b).2.1 = st.2.1) :
    ∀ (l : List String) (st : DepState),
      (l.foldl f st).2.1 = st.2.1 := by
  intro l
  induction l with
  | nil => intro st; rfl
  | cons b t ih => intro st; rw [List.foldl_cons, ih, hf]

/-- When the recursion preserves the chain, so does each loop step. -/
theorem applyStep_chain_eq
    (recurse : String → List String → ApplyRes × List String)
    (hrec : ∀ d u, (recurse d u).2 = u) (st : DepState) (dep : String) :
    (applyStep recurse st dep).2.1 = st.2.1 := by
  unfold applyStep
  by_cases h1 : st.2.2
  · simp [h1]
  · by_cases h2 : st.1.any (fun pr => pr.1 == dep)
    · simp [h1, h2]
    · simp only [h1, h2, Bool.false_eq_true, if_false]
      have := hrec dep st.2.1
      match hres : recurse dep st.2.1 with
      | (.exhausted, u) => rw [hres] at this; simpa using this
      | (.noOutput, u) => rw [hres] at this; simpa using this
      | (.output o, u) => rw [hres] at this; simpa using this

/-- Every call to `apply_report_format` returns the used-formats chain
exactly as it received it. -/
theorem apply_chain_preserved (db : RFDB) :
    ∀ (fuel : Nat) (id : String) (used : List String),
      (apply_report_format db fuel id used).2 = used := by
  intro fuel
  induction fuel with
  | zero => intro id used; rfl
  | succ fuel ih =>
    intro id used
    rw [apply_report_format]
    by_cases hmem : id ∈ used
    · simp [hmem]
    · simp only [hmem, if_false]
      match hdb : db.lookup id with
      | none => rfl
      | some info =>
        by_cases hact : info.active = true
        · simp only [hact]
          match hdeps : info.deps with
          | none => rfl
          | some depstr =>
            simp only
            have hfold := foldl_chain_eq
              (applyStep (fun d u => apply_report_format db fuel d u))
              (applyStep_chain_eq _ (fun d u => ih d u))
              (gSplit depstr) ([], used ++ [id], false)
            have herase : (used ++ [id]).erase id = used := by
              rw [List.erase_append_right _ hmem]
              simp
            cases hexh : ((gSplit depstr).foldl
                (applyStep (fun d u => apply_report_format db fuel d u))
                ([], used ++ [id], false)).2.2 <;>
              simp [hexh, hfold, herase]
        · simp [hact]

/-- Number of report formats of the table that are not yet in the
used-formats chain; the measure that bounds the recursion depth. -/
def countFree (db : RFDB) (used : List String) : Nat :=
  ((db.formats.map Prod.fst).filter (fun x => decide (x ∉ used))).length

/-- A successful lookup means the id is a key of the table. -/
theorem lookup_mem {db : RFDB} {id : String} {info : RFInfo}
    (h : db.lookup id = some info) : id ∈ db.formats.map Prod.fst := by
  unfold RFDB.lookup at h
  match hf : db.formats.find? (fun pr => pr.1 == id) with
  | none => rw [hf] at h; simp at h
  | some pr =>
    have hp := List.find?_some hf
    have hm := List.mem_of_find?_eq_some hf
    exact List.mem_map.mpr ⟨pr, hm, eq_of_beq hp⟩

/-- Appending a key of the table to the chain strictly decreases the
measure. -/
theorem countFree_append_lt (db : RFDB) (used : List String) (id : String)
    (hid : id ∈ db.formats.map Prod.fst) (hmem : id ∉ used) :
    countFree db (used ++ [id]) < countFree db used := by
  unfold countFree
  have hpoint : ∀ x : String, x ≠ id →
      (decide (x ∉ used ++ [id])) = (decide (x ∉ used)) := by
    intro x hx
    by_cases hxu : x ∈ used
    · simp [hxu]
    · simp [hxu, hx]
  have hmono : ∀ l : List String,
      (l.filter (fun x => decide (x ∉ used ++ [id]))).length ≤
        (l.filter (fun x => decide (x ∉ used))).length := by
    intro l
    refine List.Sublist.length_le (List.monotone_filter_right l ?_)
    intro a ha
    simp only [decide_eq_true_eq] at ha ⊢
    intro hc
    exact ha (List.mem_append_left _ hc)
  generalize hl : db.formats.map Prod.fst = l at hid
  clear hl
  induction l with
  | nil => cases hid
  | cons a t ih =>
    by_cases ha : a = id
    · subst ha
      rw [List.filter_cons, List.filter_cons]
      have h1 : (decide (a ∉ used ++ [a])) = false := by simp
      have h2 : (decide (a ∉ used)) = true := by simpa using hmem
      rw [h1, h2]
      simp only [List.length_cons]
      exact Nat.lt_succ_of_le (hmono t)
    · have hid' : id ∈ t := by
        rcases List.mem_cons.mp hid with h | h
        · exact absurd h.symm ha
        · exact h
      rw [List.filter_cons, List.filter_cons, hpoint a ha]
      cases hdec : (decide (a ∉ used)) with
      | false => exact ih hid'
      | true => simpa using Nat.succ_lt_succ (ih hid')

/-- A step function preserving a predicate on the loop state preserves
it across the whole fold. -/
theorem foldl_preserves {σ β : Type} (P : σ → Prop) (f : σ → β → σ)
    (hf : ∀ st b, P st → P (f st b)) :
    ∀ (l : List β) (st : σ), P st → P (l.foldl f st) := by
  intro l
  induction l with
  | nil => intro st h; exact h
  | cons b t ih => intro st h; exact ih _ (hf st b h)

/-- With enough fuel — more than the number of formats not yet in the
chain — the embedding never runs out of fuel: the C recursion
terminates, because every level of recursion adds a fresh table key to
the in-progress chain. -/
theorem apply_no_exhaustion (db : RFDB) :
    ∀ (fuel : Nat) (id : String) (used : List String),
      countFree db used < fuel →
      (apply_report_format db fuel id used).1 ≠ ApplyRes.exhausted := by
  intro fuel
  induction fuel with
  | zero => intro id used h; exact absurd h (Nat.not_lt_zero _)
  | succ fuel ih =>
    intro id used hfuel
    rw [apply_report_format]
    by_cases hmem : id ∈ used
    · simp [hmem]
    · simp only [hmem, if_false]
      match hdb : db.lookup id with
      | none => simp
      | some info =>
        by_cases hact : info.active = true
        · simp only [hact]
          match hdeps : info.deps with
          | none => simp
          | some depstr =>
            simp only
            have hlt : countFree db (used ++ [id]) < fuel := by
              have h1 := countFree_append_lt db used id (lookup_mem hdb) hmem
              omega
            have hinv := foldl_preserves
              (fun st : DepState => st.2.1 = used ++ [id] ∧ st.2.2 = false)
              (applyStep (fun d u => apply_report_format db fuel d u))
              (by
                intro st b hst
                obtain ⟨hchain, hexh⟩ := hst
                unfold applyStep
                rw [hexh]
                simp only [Bool.false_eq_true, if_false]
                by_cases hc : st.1.any (fun pr => pr.1 == b)
                · simp [hc, hchain, hexh]
                · simp only [hc, Bool.false_eq_true, if_false]
                  have hpres := apply_chain_preserved db fuel b st.2.1
                  have hne := ih b (used ++ [id]) hlt
                  rw [hchain] at hpres ⊢
                  match hres : apply_report_format db fuel b (used ++ [id]) with
                  | (.exhausted, u) =>
                    rw [hres] at hne
                    exact absurd rfl hne
                  | (.noOutput, u) =>
                    rw [hres] at hpres
                    exact ⟨hpres, rfl⟩
                  | (.output o, u) =>
                    rw [hres] at hpres
                    exact ⟨hpres, rfl⟩)
              (gSplit depstr) ([], used ++ [id], false) ⟨rfl, rfl⟩
            rw [hinv.2]
            simp
        · simp [hact]

/-- The dependency table of the cyclic scenario: A depends on B and C,
B depends back on A, C has no report-format-list parameter. -/
def dbCyclic : RFDB :=
  ⟨[("A", ⟨true, some "B,C"⟩), ("B", ⟨true, some "A"⟩),
    ("C", ⟨true, none⟩)]⟩

/-- C7: template composition terminates on every dependency graph,
cyclic ones included — with fuel exceeding the number of formats not in
the chain the embedding never exhausts its fuel; a recursive call whose
id is already in the in-progress chain returns no output instead of
recursing; and in the concrete A-B-A cycle with sibling C, applying A
yields an artifact whose subreports contain B (without the cyclic A
branch) and the non-cyclic sibling C. -/
theorem c7_cycle_termination :
    (∀ (db : RFDB) (fuel : Nat) (id : String) (used : List String),
      id ∈ used →
      apply_report_format db (fuel + 1) id used = (.noOutput, used)) ∧
    (∀ (db : RFDB) (fuel : Nat) (id : String) (used : List String),
      countFree db used < fuel →
      (apply_report_format db fuel id used).1 ≠ ApplyRes.exhausted) ∧
    apply_report_format dbCyclic 4 "A" [] =
      (.output (.mk "A" [("B", .mk "B" []), ("C", .mk "C" [])]), []) := by
  refine ⟨?_, apply_no_exhaustion, rfl⟩
  intro db fuel id used hmem
  rw [apply_report_format]
  simp [hmem]

/-- C7 witness: the cycle guard and the termination bound at concrete
inputs. -/
theorem c7_cycle_termination_witness :
    apply_report_format dbCyclic 7 "A" ["A"] = (.noOutput, ["A"]) ∧
    (apply_report_format dbCyclic 4 "A" []).1 ≠ ApplyRes.exhausted := by
  constructor
  · exact c7_cycle_termination.1 dbCyclic 6 "A" ["A"] (by decide)
  · exact c7_cycle_termination.2.1 dbCyclic 4 "A" [] (by decide)

/-- C10: every call leaves the caller's used-formats chain exactly as it
was on entry, and each early soft-failure return — cycle detected,
format not found, format inactive — returns NULL without modifying the
chain. -/
theorem c10_chain_restored :
    (∀ (db : RFDB) (fuel : Nat) (id : String) (used : List String),
      (apply_report_format db fuel id used).2 = used) ∧
    (∀ (db : RFDB) (fuel : Nat) (id : String) (used : List String),
      id ∈ used →
      apply_report_format db (fuel + 1) id used = (.noOutput, used)) ∧
    (∀ (db : RFDB) (fuel : Nat) (id : String) (used : List String),
      db.lookup id = none →
      apply_report_format db (fuel + 1) id used = (.noOutput, used)) ∧
    (∀ (db : RFDB) (fuel : Nat) (id : String) (used : List String)
      (info : RFInfo), db.lookup id = some info → info.active = false →
      apply_report_format db (fuel + 1) id used = (.noOutput, used)) := by
  refine ⟨fun db => apply_chain_preserved db, ?_, ?_, ?_⟩
  · intro db fuel id used hmem
    rw [apply_report_format]
    simp [hmem]
  · intro db fuel id used hnone
    rw [apply_report_format]
    by_cases hmem : id ∈ used
    · simp [hmem]
    · simp [hmem, hnone]
  · intro db fuel id used info hsome hinact
    rw [apply_report_format]
    by_cases hmem : id ∈ used
    · simp [hmem]
    · simp [hmem, hsome, hinact]

/-- C10 witness: concrete instantiation of the chain invariant and the
early returns. -/
theorem c10_chain_restored_witness :
    (apply_report_format dbCyclic 4 "A" []).2 = ([] : List String) ∧
    apply_report_format dbCyclic 3 "B" ["B"] = (.noOutput, ["B"]) ∧
    apply_report_format dbCyclic 3 "X" [] = (.noOutput, []) := by
  refine ⟨c10_chain_restored.1 dbCyclic 4 "A" [], ?_, ?_⟩
  · exact c10_chain_restored.2.1 dbCyclic 2 "B" ["B"] (by decide)
  · exact c10_chain_restored.2.2.1 dbCyclic 2 "X" [] (by rfl)

/-! Parameter types and value validation. -/

/-- Modelled from the spec: the parameter type enumeration
(`report_format_param_type_t`, declared outside this source file);
§3 lists integer, string, text, selection, report-format-list and
boolean. -/
inductive ParamType where
  | boolean
  | integer
  | selection
  | string
  | text
  | report_format_list
  deriving DecidableEq, Repr

/-- Modelled from the spec: `report_format_param_type_from_name`
(declared outside this source file); `none` stands for
`REPORT_FORMAT_PARAM_TYPE_ERROR`, produced for unrecognized names. -/
def report_format_param_type_from_name (nm : String) : Option ParamType :=
  if nm = "boolean" then some .boolean
  else if nm = "integer" then some .integer
  else if nm = "selection" then some .selection
  else if nm = "string" then some .string
  else if nm = "text" then some .text
  else if nm = "report_format_list" then some .report_format_list
  else none

/-- Modelled from the spec: the inverse name mapping used by
`report_format_param_iterator_type_name` when serializing a stored
parameter. -/
def paramTypeName : ParamType → String
  | .boolean => "boolean"
  | .integer => "integer"
  | .selection => "selection"
  | .string => "string"
  | .text => "text"
  | .report_format_list => "report_format_list"

/-- Digit-accumulating worker for the `strtoll` model. -/
def strtollDigits : List Char → Int → Int
  | [], acc => acc
  | c :: rest, acc =>
    if c.isDigit then
      strtollDigits rest (acc * 10 + (c.toNat - '0'.toNat : Nat))
    else acc

/-- Model of C `strtoll (s, NULL, 0)` for decimal inputs: skip leading
blanks, take an optional sign and then decimal digits, and clamp the
result into the `long long` range (strtoll saturates at `LLONG_MIN` /
`LLONG_MAX` on overflow). -/
def strtoll (s : String) : Int :=
  let cs := s.data.dropWhile (fun c => c = ' ' ∨ c = '\t')
  let v : Int :=
    match cs with
    | '-' :: rest => -(strtollDigits rest 0)
    | '+' :: rest => strtollDigits rest 0
    | _ => strtollDigits cs 0
  if v < LLONG_MIN then LLONG_MIN
  else if v > LLONG_MAX then LLONG_MAX
  else v

/-- One character of the report-format-list character class
`[[:alnum:]-_]` (ASCII alphanumerics, dash, underscore). -/
def rflChar (c : Char) : Bool := c.isAlphanum || c = '-' || c = '_'

/-- The regular expression of `validate_param_value` for
report-format-list values: an optional first segment of class
characters, then any number of comma-plus-nonempty-segment groups. -/
def rflValueOk (value : String) : Bool :=
  match (value.data.foldr
      (fun c (segs : List (List Char)) =>
        match segs with
        | [] => if c = ',' then [[], []] else [[c]]
        | s :: rest => if c = ',' then [] :: s :: rest else (c :: s) :: rest)
      [[]] : List (List Char)) with
  | [] => true
  | first :: rest =>
    first.all rflChar &&
      rest.all (fun s => !s.isEmpty && s.all rflChar)

/-- Shallow embedding of `validate_param_value` (lines 2264-2330),
reading the stored parameter row (type, bounds, options): integers are
parsed with strtoll and compared against the bounds, selections must
equal one option exactly, string/text lengths are compared in bytes
against the bounds, report-format-list values must match the id-list
regular expression; other types always pass.  `true` means validation
failed (C returns 1). -/
def validate_param_value (ty : ParamType) (type_min type_max : Int)
    (options : List String) (value : String) : Bool :=
  match ty with
  | .integer =>
    let actual := strtoll value
    decide (actual < type_min) || decide (actual > type_max)
  | .selection => !(options.any (fun o => o == value))
  | .string | .text =>
    decide ((value.utf8ByteSize : Int) < type_min) ||
      decide ((value.utf8ByteSize : Int) > type_max)
  | .report_format_list => !(rflValueOk value)
  | .boolean => false

/-! Files and the canonical form (`compare_files`, lines 502-517, and
the serialization inside `create_report_format`, lines 568-657). -/

/-- One file of a create request: the name string followed (after its
terminating NUL in the C memory layout) by the base64 file contents. -/
structure RFFile where
  name : String
  content : String
  deriving DecidableEq, Repr

/-- The `compare_files` order: `strcoll` on the name under the "C"
locale, i.e. byte-wise comparison of the names (the comparison stops at
the NUL terminating the name, so contents never participate). -/
def fileLe (a b : RFFile) : Prop := a.name ≤ b.name

instance : DecidableRel fileLe := fun a b =>
  inferInstanceAs (Decidable (a.name ≤ b.name))

instance : IsTotal RFFile fileLe := ⟨fun a b => le_total a.name b.name⟩

instance : IsTrans RFFile fileLe :=
  ⟨fun _ _ _ hab hbc => le_trans hab hbc⟩

/-- `g_ptr_array_sort (files, compare_files)` under `LC_ALL "C"`
(lines 587-590). -/
def sortFiles (files : List RFFile) : List RFFile :=
  files.insertionSort fileLe

/-- Two sorted file lists that are permutations of each other and have
pairwise-distinct names are equal. -/
theorem sorted_perm_nodup_eq :
    ∀ {l₁ l₂ : List RFFile}, l₁.Perm l₂ → l₁.Sorted fileLe →
      l₂.Sorted fileLe → (l₁.map RFFile.name).Nodup → l₁ = l₂ := by
  intro l₁
  induction l₁ with
  | nil =>
    intro l₂ hp _ _ _
    exact List.Perm.nil_eq hp
  | cons a t₁ ih =>
    intro l₂ hp hs₁ hs₂ hn
    match l₂ with
    | [] => exact absurd hp.symm (by simp)
    | b :: t₂ =>
      have hab : a = b := by
        by_contra hne
        have hain : a ∈ b :: t₂ := hp.mem_iff.mp (List.mem_cons_self a t₁)
        have hbin : b ∈ a :: t₁ := hp.mem_iff.mpr (List.mem_cons_self b t₂)
        have hat₂ : a ∈ t₂ := by
          rcases List.mem_cons.mp hain with h | h
          · exact absurd h hne
          · exact h
        have hbt₁ : b ∈ t₁ := by
          rcases List.mem_cons.mp hbin with h | h
          · exact absurd h.symm hne
          · exact h
        have h1 : fileLe a b := List.rel_of_sorted_cons hs₁ b hbt₁
        have h2 : fileLe b a := List.rel_of_sorted_cons hs₂ a hat₂
        have hname : a.name = b.name := le_antisymm h1 h2
        have : b.name ∈ t₁.map RFFile.name :=
          List.mem_map.mpr ⟨b, hbt₁, rfl⟩
        rw [← hname] at this
        exact (List.nodup_cons.mp hn).1 this
      subst hab
      have htp : t₁.Perm t₂ := hp.cons_inv
      have := ih htp (List.sorted_cons.mp hs₁).2 (List.sorted_cons.mp hs₂).2
        (List.nodup_cons.mp hn).2
      rw [this]

/-- Sorting two permutation-equivalent file lists with distinct names
yields the same list. -/
theorem sortFiles_perm_eq {l₁ l₂ : List RFFile} (hp : l₁.Perm l₂)
    (hn : (l₁.map RFFile.name).Nodup) : sortFiles l₁ = sortFiles l₂ := by
  apply sorted_perm_nodup_eq
  · exact (List.perm_insertionSort fileLe l₁).trans
      (hp.trans (List.perm_insertionSort fileLe l₂).symm)
  · exact List.sorted_insertionSort fileLe l₁
  · exact List.sorted_insertionSort fileLe l₂
  · exact ((List.perm_insertionSort fileLe l₁).map RFFile.name).nodup_iff.mpr hn

/-- One parameter of a create request
(`create_report_format_param_t`): the name, the type name (NULL
possible), the current value, the fallback (NULL possible), the min and
max bounds as parsed by `strtoll` when supplied, and the corresponding
options array (NULL when the request carried no options slot). -/
structure CParam where
  name : String
  ptype : Option String
  value : String
  fallback : Option String
  type_min : Option Int
  type_max : Option Int
  options : Option (List String)
  deriving DecidableEq, Repr

/-- Serialization of one optional bound inside the canonical form
(lines 607-623): a supplied bound equal to the sentinel is rejected
with result 6, a supplied bound otherwise is printed with `%lli`, an
absent bound contributes nothing. -/
def canonicalBound (s : String) (b : Option Int) (sentinel : Int) :
    Except Int String :=
  match b with
  | some m => if m = sentinel then Except.error 6 else Except.ok (s ++ toString m)
  | none => Except.ok s

/-- Serialization of one parameter inside the canonical form
(lines 597-642): name, type name, optional min, optional max, fallback,
then all option values in order.  A NULL string printed through `%s`
renders as glibc's "(null)"; a NULL options array aborts with -1
(lines 634-636). -/
def canonicalParam (acc : String) (p : CParam) : Except Int String :=
  match canonicalBound
      (acc ++ p.name ++ (match p.ptype with | some t => t | none => "(null)"))
      p.type_min LLONG_MIN with
  | Except.error e => Except.error e
  | Except.ok s1 =>
    match canonicalBound s1 p.type_max LLONG_MAX with
    | Except.error e => Except.error e
    | Except.ok s2 =>
      match p.options with
      | none => Except.error (-1)
      | some opts =>
        Except.ok (s2 ++ (match p.fallback with
                          | some f => f
                          | none => "(null)") ++ String.join opts)

/-- The canonical byte string built by `create_report_format`
(lines 578-644): uuid, extension, content type, `global & 1`; then each
file's name directly followed by its base64 contents (the caller must
sort `files` first, as the source does at lines 587-590); then each
parameter; then a terminating newline. -/
def canonicalForm (uuidC : String) (extension content_type : Option String)
    (global : Nat) (files : List RFFile) (params : List CParam) :
    Except Int String :=
  let hdr := uuidC ++ (extension.getD "(null)") ++ (content_type.getD "(null)")
    ++ toString (global % 2)
  let withFiles := files.foldl (fun acc f => acc ++ f.name ++ f.content) hdr
  match params.foldlM canonicalParam withFiles with
  | Except.error e => Except.error e
  | Except.ok s => Except.ok (s ++ "\n")

/-- A signature discovered by `find_signature`: its contents, and the
basename of the link target when it was found in the private signature
tree (`uuid_actual`), NULL when it came from the feed tree itself. -/
structure FeedSig where
  contents : String
  uuidActual : Option String
  deriving DecidableEq, Repr

/-- Environment of a `create_report_format` call: the `find_signature`
result, the signature-verifier environment, the ACL answers, the UUID
collision state and the outcomes of the filesystem steps. -/
structure CreateEnv where
  findSig : Option FeedSig
  verifyEnv : VerifyEnv
  mayCreate : Bool
  canEverything : Bool
  uuidExists : Bool
  uuidMakeOk : Bool
  newUuid : String
  symlinkSetupOk : Bool
  existingNames : List String
  removeExistingDirOk : Bool
  mkdirOk : Bool
  chmodUserDirOk : Bool
  chmodDirOk : Bool
  writeFileOk : String → Bool
  chmodFileOk : String → Bool

/-- Result of the signature phase of `create_report_format`
(lines 568-657): the trust value, the (sorted, when the phase ran)
files array, the value of the C `signature` variable after the phase —
line 646 redirects it to the feed signature when one was found, and the
later row INSERT stores exactly this variable — and the signature that
was actually passed to `verify_signature` (`none` when no verification
happened). -/
structure VerifyPhase where
  format_trust : Trust
  files : List RFFile
  signatureVar : Option String
  verifiedSignature : Option String

/-- Signature phase of `create_report_format` (lines 568-657).  The
phase runs when the feed lookup succeeded or the caller supplied a
signature; it sorts the files, builds the canonical form (result 6 or
-1 aborts creation), prefers the feed signature over the caller's, and
calls the verifier — a verifier error (-1, temporary-file trouble)
aborts, any classification outcome is accepted. -/
def create_verify_phase (env : CreateEnv) (uuid : String)
    (extension content_type : Option String) (global : Nat)
    (files : List RFFile) (params : List CParam)
    (signature : Option String) : Except Int VerifyPhase :=
  if env.findSig.isSome || signature.isSome then
    let uuidC := match env.findSig with
      | some fs => fs.uuidActual.getD uuid
      | none => uuid
    let files1 := sortFiles files
    match canonicalForm uuidC extension content_type global files1 params with
    | Except.error e => Except.error e
    | Except.ok _ =>
      let sigUsed : Option String := match env.findSig with
        | some fs => some fs.contents
        | none => signature
      let out := verify_signature env.verifyEnv Trust.unknown
      if out.ret ≠ 0 then Except.error (-1)
      else Except.ok ⟨out.trust, files1, sigUsed, sigUsed⟩
  else
    Except.ok ⟨Trust.unknown, files, signature, none⟩

/-- Name-collision resolution (lines 779-792): try the requested name,
then "name 2", "name 3", ... until one is not taken.  The candidate
list is long enough that a free name always exists among them. -/
def pickName (taken : List String) (name : String) : Option String :=
  (name :: (List.range (taken.length + 1)).map
      (fun i => name ++ " " ++ toString (i + 2))).find?
    (fun c => !taken.contains c)

/-- The file-writing loop of `create_report_format` (lines 870-934):
an empty file name aborts with result 2, a failed write or chmod with
-1. -/
def writeFiles (env : CreateEnv) : List RFFile → Except Int Unit
  | [] => Except.ok ()
  | f :: rest =>
    if f.name = "" then Except.error 2
    else if !env.writeFileOk f.name then Except.error (-1)
    else if !env.chmodFileOk f.name then Except.error (-1)
    else writeFiles env rest

/-- The report_formats row inserted by `create_report_format`
(lines 945-978). -/
structure FormatRow where
  uuid : String
  name : String
  ownerNone : Bool
  summary : String
  description : String
  extension : String
  content_type : String
  signature : String
  trust : Trust
  flags : Int
  deriving DecidableEq, Repr

/-- One report_format_params row inserted by `create_report_format`
(lines 1074-1084) together with its option rows; `type_regex` is always
stored as the empty string. -/
structure CreateParamRow where
  name : String
  ptype : ParamType
  value : String
  type_min : Int
  type_max : Int
  type_regex : String
  fallback : String
  options : List String
  deriving DecidableEq, Repr

/-- The optional min bound as stored in the database (lines 1021-1033):
a supplied bound parsing to `LLONG_MIN` is result 6, an absent bound is
stored as the sentinel `LLONG_MIN`. -/
def paramMinBound (b : Option Int) : Except Int Int :=
  match b with
  | some m => if m = LLONG_MIN then Except.error 6 else Except.ok m
  | none => Except.ok LLONG_MIN

/-- The optional max bound as stored in the database (lines 1035-1047). -/
def paramMaxBound (b : Option Int) : Except Int Int :=
  match b with
  | some m => if m = LLONG_MAX then Except.error 6 else Except.ok m
  | none => Except.ok LLONG_MAX

/-- One iteration of the parameter loop of `create_report_format`
(lines 991-1137): missing type 7, unrecognized type 9, sentinel bound
6, missing fallback 5, duplicate name 8, missing options array -1,
failed validation of the value 3, of the fallback 4; otherwise the row
is appended. -/
def createParamStep (rows : List CreateParamRow) (p : CParam) :
    Except Int (List CreateParamRow) :=
  match p.ptype with
  | none => Except.error 7
  | some tyname =>
    match report_format_param_type_from_name tyname with
    | none => Except.error 9
    | some ty =>
      match paramMinBound p.type_min with
      | Except.error e => Except.error e
      | Except.ok minv =>
        match paramMaxBound p.type_max with
        | Except.error e => Except.error e
        | Except.ok maxv =>
          match p.fallback with
          | none => Except.error 5
          | some fb =>
            if rows.any (fun r => r.name == p.name) then Except.error 8
            else
              match p.options with
              | none => Except.error (-1)
              | some opts =>
                if validate_param_value ty minv maxv opts p.value then
                  Except.error 3
                else if validate_param_value ty minv maxv opts fb then
                  Except.error 4
                else
                  Except.ok
                    (rows ++ [⟨p.name, ty, p.value, minv, maxv, "", fb, opts⟩])

/-- Result of `create_report_format`: the inserted row and parameter
rows on success, the result code on failure. -/
inductive CreateResult where
  | ok (row : FormatRow) (params : List CreateParamRow)
  | err (code : Int)
  deriving DecidableEq, Repr

/-- Shallow embedding of `create_report_format` (lines 545-1147):
signature phase, permission checks, UUID-collision handling (minting a
fresh UUID and linking the signature; the filesystem steps of the link
setup are collapsed into one success flag since each failure exits with
-1), name suffixing, directory setup, file writing, then the row and
parameter inserts.  The stored signature is the C `signature` variable
after the phase, i.e. the feed signature when one was found. -/
def create_report_format (env : CreateEnv) (uuid name : String)
    (content_type extension summary description : Option String)
    (global : Nat) (files : List RFFile) (params : List CParam)
    (signature : Option String) : CreateResult :=
  match create_verify_phase env uuid extension content_type global files
      params signature with
  | Except.error e => CreateResult.err e
  | Except.ok vp =>
    if !env.mayCreate then CreateResult.err 99
    else if global ≠ 0 && !env.canEverything then CreateResult.err 99
    else
      match (if env.uuidExists then
               if !env.uuidMakeOk then Except.error (-1)
               else if !env.symlinkSetupOk then Except.error (-1)
               else Except.ok (some env.newUuid)
             else Except.ok none : Except Int (Option String)) with
      | Except.error e => CreateResult.err e
      | Except.ok newUuid =>
        match pickName env.existingNames name with
        | none => CreateResult.err (-1)
        | some candidate =>
          if !env.removeExistingDirOk then CreateResult.err (-1)
          else if !env.mkdirOk then CreateResult.err (-1)
          else if global = 0 && !env.chmodUserDirOk then CreateResult.err (-1)
          else if !env.chmodDirOk then CreateResult.err (-1)
          else
            match writeFiles env vp.files with
            | Except.error e => CreateResult.err e
            | Except.ok _ =>
              match params.foldlM createParamStep [] with
              | Except.error e => CreateResult.err e
              | Except.ok rows =>
                CreateResult.ok
                  { uuid := newUuid.getD uuid
                    name := candidate
                    ownerNone := global ≠ 0
                    summary := summary.getD ""
                    description := description.getD ""
                    extension := extension.getD ""
                    content_type := content_type.getD ""
                    signature := vp.signatureVar.getD ""
                    trust := vp.format_trust
                    flags := 0 }
                  rows

/-! Re-verification (`verify_report_format_internal`, lines 3553-3696). -/

/-- The stored report_formats row fields read by
`verify_report_format_internal`. -/
structure StoredFormat where
  uuid : String
  extension : String
  content_type : String
  signature : String
  predefined : Bool
  deriving DecidableEq, Repr

/-- One stored file as seen by the file iterator: name and base64
contents. -/
structure StoredFile where
  name : String
  content64 : String
  deriving DecidableEq, Repr

/-- Serialization of one stored parameter inside the re-verification
canonical form (lines 3608-3648): name, type name, min only when above
the sentinel, max only when below the sentinel, the stored regex, the
fallback, then the option values. -/
def storedParamCanonical (acc : String) (q : CreateParamRow) : String :=
  let s0 := acc ++ q.name ++ paramTypeName q.ptype
  let s1 := if LLONG_MIN < q.type_min then s0 ++ toString q.type_min else s0
  let s2 := if q.type_max < LLONG_MAX then s1 ++ toString q.type_max else s1
  s2 ++ q.type_regex ++ q.fallback ++ String.join q.options

/-- The canonical byte string rebuilt by
`verify_report_format_internal` (lines 3582-3651). -/
def verifyInternalCanonical (uuidC : String) (fmt : StoredFormat)
    (files : List StoredFile) (params : List CreateParamRow) : String :=
  let hdr := uuidC ++ fmt.extension ++ fmt.content_type
    ++ toString (if fmt.predefined then (1 : Nat) else 0)
  let withFiles := files.foldl (fun acc f => acc ++ f.name ++ f.content64) hdr
  (params.foldl storedParamCanonical withFiles) ++ "\n"

/-- Environment of a `verify_report_format_internal` call. -/
structure VerifyInternalEnv where
  findSig : Option FeedSig
  verifyEnv : VerifyEnv

/-- Outcome of `verify_report_format_internal`: the return code, the
trust value written to the row (when the return code is 0), the
signature that was verified (`none` when neither signature was
available) and the canonical string that was built. -/
structure VerifyInternalOutcome where
  ret : Int
  trust : Trust
  verifiedSignature : Option String
  canonical : Option String

/-- Shallow embedding of `verify_report_format_internal`
(lines 3553-3696): when a feed signature was found or the stored
signature column is non-empty, rebuild the canonical form and verify —
trying the feed signature first (lines 3653-3664) and the database
signature only otherwise (lines 3665-3676); with neither, no
verification happens and the row is updated with trust Unknown. -/
def verify_report_format_internal (env : VerifyInternalEnv)
    (fmt : StoredFormat) (files : List StoredFile)
    (params : List CreateParamRow) : VerifyInternalOutcome :=
  if env.findSig.isSome || fmt.signature ≠ "" then
    let uuidC := match env.findSig with
      | some fs => fs.uuidActual.getD fmt.uuid
      | none => fmt.uuid
    let fmtStr := verifyInternalCanonical uuidC fmt files params
    match env.findSig with
    | some fs =>
      let out := verify_signature env.verifyEnv Trust.unknown
      if out.ret ≠ 0 then ⟨-1, Trust.unknown, some fs.contents, some fmtStr⟩
      else ⟨0, out.trust, some fs.contents, some fmtStr⟩
    | none =>
      if fmt.signature ≠ "" then
        let out := verify_signature env.verifyEnv Trust.unknown
        if out.ret ≠ 0 then
          ⟨-1, Trust.unknown, some fmt.signature, some fmtStr⟩
        else ⟨0, out.trust, some fmt.signature, some fmtStr⟩
      else ⟨0, Trust.unknown, none, some fmtStr⟩
  else ⟨0, Trust.unknown, none, none⟩

/-- C1: at creation and at re-verification, whenever a feed-discovered
signature is available it is the one verified (and, at creation, also
the one stored); the caller-supplied (or database-stored) signature is
used only when no feed signature was found. -/
theorem c1_feed_signature_preferred :
    (∀ (env : CreateEnv) (uuid : String) (ext ct : Option String)
      (global : Nat) (files : List RFFile) (params : List CParam)
      (sig : Option String) (fs : FeedSig) (vp : VerifyPhase),
      env.findSig = some fs →
      create_verify_phase env uuid ext ct global files params sig =
        Except.ok vp →
      vp.verifiedSignature = some fs.contents ∧
        vp.signatureVar = some fs.contents) ∧
    (∀ (env : CreateEnv) (uuid : String) (ext ct : Option String)
      (global : Nat) (files : List RFFile) (params : List CParam)
      (sig : Option String) (vp : VerifyPhase),
      env.findSig = none →
      create_verify_phase env uuid ext ct global files params sig =
        Except.ok vp →
      vp.verifiedSignature = sig) ∧
    (∀ (env : VerifyInternalEnv) (fmt : StoredFormat)
      (files : List StoredFile) (params : List CreateParamRow)
      (fs : FeedSig),
      env.findSig = some fs →
      (verify_report_format_internal env fmt files params).verifiedSignature
        = some fs.contents) ∧
    (∀ (env : VerifyInternalEnv) (fmt : StoredFormat)
      (files : List StoredFile) (params : List CreateParamRow),
      env.findSig = none →
      (verify_report_format_internal env fmt files params).verifiedSignature
        = (if fmt.signature ≠ "" then some fmt.signature else none)) := by
  refine ⟨?_, ?_, ?_, ?_⟩
  · intro env uuid ext ct global files params sig fs vp hfs hok
    unfold create_verify_phase at hok
    rw [hfs] at hok
    simp only [Option.isSome_some, Bool.true_or, if_true] at hok
    split at hok
    · exact absurd hok (by simp)
    · split at hok
      · exact absurd hok (by simp)
      · cases hok
        exact ⟨rfl, rfl⟩
  · intro env uuid ext ct global files params sig vp hfs hok
    unfold create_verify_phase at hok
    rw [hfs] at hok
    simp only [Option.isSome_none, Bool.false_or] at hok
    by_cases hsig : sig.isSome
    · rw [if_pos hsig] at hok
      split at hok
      · exact absurd hok (by simp)
      · split at hok
        · exact absurd hok (by simp)
        · cases hok
          rfl
    · rw [if_neg hsig] at hok
      cases hok
      have hnone : sig = none := Option.not_isSome_iff_eq_none.mp hsig
      simp [hnone]
  · intro env fmt files params fs hfs
    by_cases hret : (verify_signature env.verifyEnv Trust.unknown).ret ≠ 0 <;>
      simp [verify_report_format_internal, hfs, hret]
  · intro env fmt files params hfs
    by_cases hdb : fmt.signature ≠ ""
    · by_cases hret :
          (verify_signature env.verifyEnv Trust.unknown).ret ≠ 0 <;>
        simp [verify_report_format_internal, hfs, hdb, hret]
    · simp [verify_report_format_internal, hfs, hdb]

/-- C1 witness: with a feed signature "FEEDSIG" and a caller signature
"CALLERSIG" both present, the verified and stored signature is the
feed one; with no feed signature, the database signature is the one
verified at re-verification. -/
theorem c1_feed_signature_preferred_witness :
    (⟨Trust.yes, [], some "FEEDSIG", some "FEEDSIG"⟩ :
        VerifyPhase).verifiedSignature = some "FEEDSIG" ∧
    (verify_report_format_internal
        ⟨none, ⟨true, true, true, true, .spawned 0⟩⟩
        ⟨"u", "xml", "text/xml", "DBSIG", false⟩ [] []).verifiedSignature
      = some "DBSIG" := by
  constructor
  · exact (c1_feed_signature_preferred.1
      { findSig := some ⟨"FEEDSIG", none⟩
        verifyEnv := ⟨true, true, true, true, .spawned 0⟩
        mayCreate := true, canEverything := true, uuidExists := false
        uuidMakeOk := true, newUuid := "n", symlinkSetupOk := true
        existingNames := [], removeExistingDirOk := true, mkdirOk := true
        chmodUserDirOk := true, chmodDirOk := true
        writeFileOk := fun _ => true, chmodFileOk := fun _ => true }
      "u" none none 0 [] [] (some "CALLERSIG")
      ⟨"FEEDSIG", none⟩ ⟨Trust.yes, [], some "FEEDSIG", some "FEEDSIG"⟩
      rfl rfl).1
  · have := c1_feed_signature_preferred.2.2.2
      ⟨none, ⟨true, true, true, true, .spawned 0⟩⟩
      ⟨"u", "xml", "text/xml", "DBSIG", false⟩ [] [] rfl
    simpa using this

/-- C5: the canonical byte string is invariant under the order in which
the files of a create request are supplied: for any permutation of a
file list with pairwise-distinct names the sorted serialization input,
and hence the canonical form, is the identical byte string. -/
theorem c5_canonical_file_order_invariant (uuidC : String)
    (ext ct : Option String) (global : Nat)
    (files1 files2 : List RFFile) (params : List CParam)
    (hperm : files1.Perm files2)
    (hnames : (files1.map RFFile.name).Nodup) :
    canonicalForm uuidC ext ct global (sortFiles files1) params =
      canonicalForm uuidC ext ct global (sortFiles files2) params := by
  rw [sortFiles_perm_eq hperm hnames]

/-- C5 witness: a concrete two-file permutation. -/
theorem c5_canonical_file_order_invariant_witness :
    canonicalForm "u" (some "xml") (some "text/xml") 0
        (sortFiles [⟨"generate", "QQ"⟩, ⟨"aux.xsl", "WW"⟩]) [] =
      canonicalForm "u" (some "xml") (some "text/xml") 0
        (sortFiles [⟨"aux.xsl", "WW"⟩, ⟨"generate", "QQ"⟩]) [] := by
  exact c5_canonical_file_order_invariant "u" (some "xml") (some "text/xml")
    0 [⟨"generate", "QQ"⟩, ⟨"aux.xsl", "WW"⟩]
    [⟨"aux.xsl", "WW"⟩, ⟨"generate", "QQ"⟩] [] (by decide) (by decide)

/-- Specification of `paramMinBound` on success: the stored value is
the sentinel exactly when no bound was supplied. -/
theorem paramMinBound_ok {b : Option Int} {v : Int}
    (h : paramMinBound b = Except.ok v)
    (hr : ∀ m, b = some m → LLONG_MIN ≤ m) :
    (v = LLONG_MIN ↔ b = none) ∧ (LLONG_MIN < v ↔ b.isSome) := by
  cases hb : b with
  | none =>
    rw [hb] at h
    simp only [paramMinBound] at h
    cases h
    simp
  | some m =>
    rw [hb] at h
    simp only [paramMinBound] at h
    by_cases hm : m = LLONG_MIN
    · rw [if_pos hm] at h; cases h
    · rw [if_neg hm] at h
      cases h
      have := hr v hb
      constructor
      · simp [hm]
      · simp only [Option.isSome_some, iff_true]
        exact lt_of_le_of_ne this (fun he => hm he.symm)

/-- Specification of `paramMaxBound` on success. -/
theorem paramMaxBound_ok {b : Option Int} {v : Int}
    (h : paramMaxBound b = Except.ok v)
    (hr : ∀ m, b = some m → m ≤ LLONG_MAX) :
    (v = LLONG_MAX ↔ b = none) ∧ (v < LLONG_MAX ↔ b.isSome) := by
  cases hb : b with
  | none =>
    rw [hb] at h
    simp only [paramMaxBound] at h
    cases h
    simp
  | some m =>
    rw [hb] at h
    simp only [paramMaxBound] at h
    by_cases hm : m = LLONG_MAX
    · rw [if_pos hm] at h; cases h
    · rw [if_neg hm] at h
      cases h
      have := hr v hb
      constructor
      · simp [hm]
      · simp only [Option.isSome_some, iff_true]
        exact lt_of_le_of_ne this hm

/-- C6: a supplied min bound parsing to `LLONG_MIN` or a supplied max
bound parsing to `LLONG_MAX` is rejected with the distinct
bounds-out-of-range result 6, both in the parameter loop and in the
canonical-form build; on a successful insert the stored bound equals
the sentinel exactly when no bound was supplied, so the re-verification
serialization (which includes a bound only when it is strictly inside
the sentinels) serializes a bound exactly when one was actually
supplied. -/
theorem c6_sentinel_bounds :
    (∀ (p : CParam), p.ptype.isSome →
      (p.type_min = some LLONG_MIN ∨ p.type_max = some LLONG_MAX) →
      (∀ rows, createParamStep rows p = Except.error 6 ∨
        createParamStep rows p = Except.error 9) ∧
      (∀ acc, canonicalParam acc p = Except.error 6)) ∧
    (∀ (rows rows' : List CreateParamRow) (p : CParam),
      createParamStep rows p = Except.ok rows' →
      (∀ m, p.type_min = some m → LLONG_MIN ≤ m) →
      (∀ m, p.type_max = some m → m ≤ LLONG_MAX) →
      ∃ row, rows' = rows ++ [row] ∧
        (row.type_min = LLONG_MIN ↔ p.type_min = none) ∧
        (row.type_max = LLONG_MAX ↔ p.type_max = none) ∧
        (LLONG_MIN < row.type_min ↔ p.type_min.isSome) ∧
        (row.type_max < LLONG_MAX ↔ p.type_max.isSome)) ∧
    (∀ (acc : String) (q : CreateParamRow), storedParamCanonical acc q =
      acc ++ q.name ++ paramTypeName q.ptype ++
        (if LLONG_MIN < q.type_min then toString q.type_min else "") ++
        (if q.type_max < LLONG_MAX then toString q.type_max else "") ++
        q.type_regex ++ q.fallback ++ String.join q.options) := by
  refine ⟨?_, ?_, ?_⟩
  · intro p hty hsent
    obtain ⟨tyname, hpt⟩ := Option.isSome_iff_exists.mp hty
    constructor
    · intro rows
      unfold createParamStep
      rw [hpt]
      match hrec : report_format_param_type_from_name tyname with
      | none => right; simp [hrec]
      | some ty =>
        left
        simp only [hrec]
        rcases hsent with hmin | hmax
        · simp [paramMinBound, hmin]
        · match hm : p.type_min with
          | none =>
            simp [paramMinBound, paramMaxBound, hm, hmax]
          | some m =>
            by_cases hms : m = LLONG_MIN
            · simp [paramMinBound, hm, hms]
            · simp [paramMinBound, paramMaxBound, hm, hms, hmax]
    · intro acc
      unfold canonicalParam
      rcases hsent with hmin | hmax
      · simp [canonicalBound, hmin]
      · match hm : p.type_min with
        | none => simp [canonicalBound, hm, hmax]
        | some m =>
          by_cases hms : m = LLONG_MIN
          · simp [canonicalBound, hm, hms]
          · simp [canonicalBound, hm, hms, hmax]
  · intro rows rows' p hok hmin hmax
    unfold createParamStep at hok
    match hpt : p.ptype with
    | none => simp only [hpt] at hok; cases hok
    | some tyname =>
      simp only [hpt] at hok
      match hrec : report_format_param_type_from_name tyname with
      | none => simp only [hrec] at hok; cases hok
      | some ty =>
        simp only [hrec] at hok
        match hmb : paramMinBound p.type_min with
        | Except.error e => simp only [hmb] at hok; cases hok
        | Except.ok minv =>
          simp only [hmb] at hok
          match hxb : paramMaxBound p.type_max with
          | Except.error e => simp only [hxb] at hok; cases hok
          | Except.ok maxv =>
            simp only [hxb] at hok
            match hf : p.fallback with
            | none => simp only [hf] at hok; cases hok
            | some fb =>
              simp only [hf] at hok
              by_cases hdup : (rows.any fun r => r.name == p.name) = true
              · rw [if_pos hdup] at hok; cases hok
              · rw [if_neg hdup] at hok
                match hop : p.options with
                | none => simp only [hop] at hok; cases hok
                | some opts =>
                  simp only [hop] at hok
                  by_cases hv1 :
                      validate_param_value ty minv maxv opts p.value = true
                  · rw [if_pos hv1] at hok; cases hok
                  · rw [if_neg hv1] at hok
                    by_cases hv2 :
                        validate_param_value ty minv maxv opts fb = true
                    · rw [if_pos hv2] at hok; cases hok
                    · rw [if_neg hv2] at hok
                      cases hok
                      obtain ⟨h1, h2⟩ := paramMinBound_ok hmb hmin
                      obtain ⟨h3, h4⟩ := paramMaxBound_ok hxb hmax
                      exact ⟨_, rfl, h1, h3, h2, h4⟩
  · intro acc q
    unfold storedParamCanonical
    by_cases h1 : LLONG_MIN < q.type_min <;>
      by_cases h2 : q.type_max < LLONG_MAX <;>
        simp [h1, h2, String.append_empty]

/-- C6 witness: a supplied min equal to `LLONG_MIN` is rejected with 6;
a parameter with no bounds stores both sentinels and serializes
neither. -/
theorem c6_sentinel_bounds_witness :
    (createParamStep []
        ⟨"p", some "integer", "0", some "0", some LLONG_MIN, none,
          some []⟩ = Except.error 6 ∨
      createParamStep []
        ⟨"p", some "integer", "0", some "0", some LLONG_MIN, none,
          some []⟩ = Except.error 9) ∧
    storedParamCanonical "" ⟨"p", .integer, "0", LLONG_MIN, LLONG_MAX,
        "", "0", []⟩ =
      "" ++ "p" ++ "integer" ++ "" ++ "" ++ "" ++ "0" ++ "" := by
  constructor
  · exact (c6_sentinel_bounds.1
      ⟨"p", some "integer", "0", some "0", some LLONG_MIN, none, some []⟩
      (by decide) (Or.inl rfl)).1 []
  · have := c6_sentinel_bounds.2.2 ""
      ⟨"p", .integer, "0", LLONG_MIN, LLONG_MAX, "", "0", []⟩
    rw [this]
    decide

/-- When the requested name is free, the name-collision loop keeps it. -/
theorem pickName_free (taken : List String) (name : String)
    (h : taken.contains name = false) : pickName taken name = some name := by
  unfold pickName
  rw [List.find?_cons_of_pos]
  simp only [Bool.not_eq_true']
  exact h

/-- The file-writing loop succeeds when every file has a nonempty name
and both per-file filesystem steps succeed. -/
theorem writeFiles_ok (env : CreateEnv) :
    ∀ (files : List RFFile),
      (∀ f ∈ files, f.name ≠ "" ∧ env.writeFileOk f.name = true ∧
        env.chmodFileOk f.name = true) →
      writeFiles env files = Except.ok () := by
  intro files
  induction files with
  | nil => intro _; rfl
  | cons f rest ih =>
    intro h
    obtain ⟨hname, hw, hc⟩ := h f (List.mem_cons_self f rest)
    unfold writeFiles
    rw [if_neg hname]
    simp only [hw, hc, Bool.not_true, Bool.false_eq_true, if_false]
    exact ih (fun g hg => h g (List.mem_cons_of_mem f hg))

/-- C9: a valid creation request with no caller-supplied signature and
no signature discoverable in the feed or private tree succeeds, and the
row it inserts has trust Unknown (and an empty stored signature). -/
theorem c9_no_signature_unknown_trust (env : CreateEnv)
    (uuid name : String) (ct ext summary description : Option String)
    (files : List RFFile) (params : List CParam)
    (rows : List CreateParamRow)
    (hfeed : env.findSig = none)
    (hmay : env.mayCreate = true)
    (huuid : env.uuidExists = false)
    (hname : env.existingNames.contains name = false)
    (hrm : env.removeExistingDirOk = true)
    (hmk : env.mkdirOk = true)
    (hch1 : env.chmodUserDirOk = true)
    (hch2 : env.chmodDirOk = true)
    (hfiles : ∀ f ∈ files, f.name ≠ "" ∧ env.writeFileOk f.name = true ∧
      env.chmodFileOk f.name = true)
    (hparams : params.foldlM createParamStep [] = Except.ok rows) :
    create_report_format env uuid name ct ext summary description 0 files
        params none =
      CreateResult.ok
        { uuid := uuid, name := name, ownerNone := false
          summary := summary.getD "", description := description.getD ""
          extension := ext.getD "", content_type := ct.getD ""
          signature := "", trust := Trust.unknown, flags := 0 } rows := by
  unfold create_report_format
  have hphase : create_verify_phase env uuid ext ct 0 files params none =
      Except.ok ⟨Trust.unknown, files, none, none⟩ := by
    unfold create_verify_phase
    rw [hfeed]
    simp
  rw [hphase]
  simp only [hmay, Bool.not_true, Bool.false_eq_true, if_false, huuid,
    Bool.false_eq_true, if_false]
  rw [pickName_free env.existingNames name hname]
  simp only [hrm, hmk, hch1, hch2, Bool.not_true, Bool.false_eq_true,
    if_false, decide_True, if_true]
  rw [writeFiles_ok env files hfiles, hparams]
  simp

/-- C9 witness: a concrete creation request with one file, one boolean
parameter and no signature anywhere. -/
theorem c9_no_signature_unknown_trust_witness :
    create_report_format
        { findSig := none
          verifyEnv := ⟨true, true, true, true, .spawned 0⟩
          mayCreate := true, canEverything := false, uuidExists := false
          uuidMakeOk := true, newUuid := "n", symlinkSetupOk := true
          existingNames := [], removeExistingDirOk := true, mkdirOk := true
          chmodUserDirOk := true, chmodDirOk := true
          writeFileOk := fun _ => true, chmodFileOk := fun _ => true }
        "1a2b" "PDF" (some "application/pdf") (some "pdf") none none 0
        [⟨"generate", "IyEvYmluL3No"⟩]
        [⟨"frontpage", some "boolean", "1", some "0", none, none, some []⟩]
        none =
      CreateResult.ok
        { uuid := "1a2b", name := "PDF", ownerNone := false
          summary := "", description := ""
          extension := "pdf", content_type := "application/pdf"
          signature := "", trust := Trust.unknown, flags := 0 }
        [⟨"frontpage", .boolean, "1", LLONG_MIN, LLONG_MAX, "", "0", []⟩] := by
  exact c9_no_signature_unknown_trust _ "1a2b" "PDF" (some "application/pdf")
    (some "pdf") none none [⟨"generate", "IyEvYmluL3No"⟩]
    [⟨"frontpage", some "boolean", "1", some "0", none, none, some []⟩]
    [⟨"frontpage", .boolean, "1", LLONG_MIN, LLONG_MAX, "", "0", []⟩]
    rfl rfl rfl rfl rfl rfl rfl rfl (by decide) (by rfl)

/-! Feed reconciliation (`check_db_report_formats`,
`check_report_format`, `check_report_format_create`,
`check_report_format_add_params`; lines 2937-3544 and 4775-4877).

SQL rows are lists of record values; the parameter and option foreign
keys are modelled by the owning format's uuid, which determines the row
id because `make_report_format_uuids_unique` runs earlier in
`check_db_report_formats`.  `m_now ()` and `time (NULL)` are one time
value `t` per reconciliation run.  Role-permission grants and the
`resources_predefined` association are out-of-scope collaborators. -/

/-- `REPORT_FORMAT_FLAG_ACTIVE`. -/
def FLAG_ACTIVE : Int := 1

/-- `g_ascii_isspace`. -/
def gIsSpace (c : Char) : Bool :=
  c = ' ' || c = '\t' || c = '\n' || c = '\r' || c = '\x0b' || c = '\x0c'

/-- `g_strstrip`: remove leading and trailing ASCII whitespace. -/
def gStrstrip (s : String) : String :=
  String.mk (((s.data.dropWhile gIsSpace).reverse.dropWhile gIsSpace).reverse)

/-- A report_formats row as touched by the reconciler. -/
structure FRow where
  uuid : String
  owner : Option Int
  name : String
  summary : String
  description : String
  extension : String
  content_type : String
  signature : String
  trust : Int
  trust_time : Int
  flags : Int
  creation_time : Int
  modification_time : Int
  deriving DecidableEq, Repr

/-- A report_format_params row; `type_min` / `type_max` are nullable in
this table (the reconciler stores SQL NULL for an absent bound). -/
structure PRow where
  rf : String
  name : String
  ptype : ParamType
  value : String
  type_min : Option Int
  type_max : Option Int
  fallback : String
  deriving DecidableEq, Repr

/-- A report_format_param_options row. -/
structure ORow where
  rf : String
  param : String
  value : String
  deriving DecidableEq, Repr

/-- The three tables the reconciler writes. -/
structure FeedDB where
  formats : List FRow
  params : List PRow
  options : List ORow
  deriving DecidableEq, Repr

/-- One `param` element of a parsed descriptor
(`report_format.xml`), after the validation of
`check_report_format_add_params` (type recognized, bounds parsed and
not at the sentinels). -/
structure DParam where
  name : String
  fallback : String
  ptype : ParamType
  min : Option Int
  max : Option Int
  opts : Option (List String)
  value : String
  deriving DecidableEq, Repr

/-- A parsed descriptor file: the directory name (uuid) plus the fields
extracted by `check_report_format_parse`. -/
structure Descriptor where
  uuid : String
  name : String
  summary : String
  description : String
  extension : String
  content_type : String
  params : List DParam
  deriving DecidableEq, Repr

/-- SQL `!=` on a nullable integer column: comparisons involving NULL
are not true. -/
def sqlNeqOpt (a b : Option Int) : Bool :=
  match a, b with
  | some x, some y => decide (x ≠ y)
  | _, _ => false

/-- The row-difference predicate of the modification-time UPDATE in
`check_report_format_create` (lines 2970-2987): owner, name, summary,
description, extension, content type, trust and flags are compared;
signature, trust_time and the timestamps are not. -/
def trackedDiff (r c : FRow) : Bool :=
  sqlNeqOpt r.owner c.owner || decide (r.name ≠ c.name) ||
    decide (r.summary ≠ c.summary) ||
    decide (r.description ≠ c.description) ||
    decide (r.extension ≠ c.extension) ||
    decide (r.content_type ≠ c.content_type) ||
    decide (r.trust ≠ c.trust) || decide (r.flags ≠ c.flags)

/-- The row-difference predicate of the parameter
modification-time check (lines 3249-3270): type, value, min, max and
fallback are compared, min and max with SQL NULL semantics.  The query
joins on equal names and equal `report_format` only — it does not
restrict the pair to the format being processed. -/
def paramDiff (q c : PRow) : Bool :=
  decide (q.ptype ≠ c.ptype) || decide (q.value ≠ c.value) ||
    sqlNeqOpt q.type_min c.type_min || sqlNeqOpt q.type_max c.type_max ||
    decide (q.fallback ≠ c.fallback)

/-- `check_report_format_create` (lines 2937-3039): update the row in
place when the uuid exists — owner NULL, stripped descriptor fields,
empty signature, trust Yes with fresh trust time, active flags — and
refresh the modification time only when a tracked field differs from
the shadow row with the same id; otherwise insert a fresh predefined
row. -/
def check_report_format_create (t : Int) (d : Descriptor) (db : FeedDB)
    (shF : List FRow) : FeedDB :=
  if db.formats.any (fun r => r.uuid == d.uuid) then
    let fs1 := db.formats.map (fun r =>
      if r.uuid == d.uuid then
        { r with owner := none, name := gStrstrip d.name
                 summary := gStrstrip d.summary
                 description := gStrstrip d.description
                 extension := gStrstrip d.extension
                 content_type := gStrstrip d.content_type
                 signature := "", trust := Trust.yes.code, trust_time := t
                 flags := FLAG_ACTIVE }
      else r)
    let fs2 := fs1.map (fun r =>
      if r.uuid == d.uuid &&
          shF.any (fun c => c.uuid == r.uuid && trackedDiff r c) then
        { r with modification_time := t }
      else r)
    { db with formats := fs2 }
  else
    { db with formats := db.formats ++
        [{ uuid := d.uuid, owner := none, name := gStrstrip d.name
           summary := gStrstrip d.summary
           description := gStrstrip d.description
           extension := gStrstrip d.extension
           content_type := gStrstrip d.content_type
           signature := "", trust := Trust.yes.code, trust_time := t
           flags := FLAG_ACTIVE, creation_time := t
           modification_time := t }] }

/-- One `param` iteration of `check_report_format_add_params`
(lines 3059-3352) for format uuid `u`: update the named parameter in
place when it exists (raising the modification flag when any compared
field differs from a shadow row of the same name and format, and
replacing its options), otherwise insert it (raising the flag); then
delete the shadow row of that name ("keep this param") and add the
descriptor's options. -/
def check_param_step (u : String) (p : DParam) :
    FeedDB × List PRow × Bool → FeedDB × List PRow × Bool :=
  fun st =>
    let db := st.1
    let shP := st.2.1
    let flag := st.2.2
    let qname := gStrstrip p.name
    let qvalue := gStrstrip p.value
    let qfallback := gStrstrip p.fallback
    if db.params.any (fun q => q.rf == u && q.name == qname) then
      let ps1 := db.params.map (fun q =>
        if q.rf == u && q.name == qname then
          { q with ptype := p.ptype, value := qvalue, type_min := p.min
                   type_max := p.max, fallback := qfallback }
        else q)
      let flag1 := flag ||
        ps1.any (fun q => shP.any (fun c =>
          q.name == qname && c.name == qname && q.rf == c.rf &&
            paramDiff q c))
      let os1 := db.options.filter
        (fun o => !(o.rf == u && o.param == qname))
      let shP1 := shP.filter (fun c => !(c.rf == u && c.name == qname))
      let os2 := match p.opts with
        | some vs => os1 ++ vs.map (fun v => ⟨u, qname, v⟩)
        | none => os1
      ({ db with params := ps1, options := os2 }, shP1, flag1)
    else
      let ps1 := db.params ++
        [{ rf := u, name := qname, ptype := p.ptype, value := qvalue
           type_min := p.min, type_max := p.max, fallback := qfallback }]
      let shP1 := shP.filter (fun c => !(c.rf == u && c.name == qname))
      let os2 := match p.opts with
        | some vs => db.options ++ vs.map (fun v => ⟨u, qname, v⟩)
        | none => db.options
      ({ db with params := ps1, options := os2 }, shP1, true)

/-- `check_report_format` (lines 3432-3544): create or update the row,
process every descriptor parameter, delete parameters the descriptor no
longer defines (raising the modification flag), refresh the
modification time when the flag is set, and confirm the format by
removing its shadow row. -/
def check_report_format (t : Int) (d : Descriptor)
    (st : FeedDB × List FRow × List PRow) :
    FeedDB × List FRow × List PRow :=
  let db1 := check_report_format_create t d st.1 st.2.1
  let inner := d.params.foldl (fun s p => check_param_step d.uuid p s)
    (db1, st.2.2, false)
  let db2 := inner.1
  let shP2 := inner.2.1
  let flag := inner.2.2
  let staleNames := (shP2.filter (fun c => c.rf == d.uuid)).map PRow.name
  let step3 :=
    if shP2.any (fun c => c.rf == d.uuid) then
      ({ db2 with
         options := db2.options.filter
           (fun o => !(o.rf == d.uuid && staleNames.contains o.param))
         params := db2.params.filter
           (fun q => !(q.rf == d.uuid && staleNames.contains q.name)) },
        true)
    else (db2, flag)
  let db4 :=
    if step3.2 then
      { step3.1 with formats := step3.1.formats.map (fun r =>
          if r.uuid == d.uuid then { r with modification_time := t }
          else r) }
    else step3.1
  (db4, st.2.1.filter (fun c => !(c.uuid == d.uuid)), shP2)

/-- `check_db_report_formats` (lines 4775-4877), reduced to the
reconciliation proper: snapshot the predefined rows and their
parameters into the shadow tables, run `check_report_format` for every
descriptor found on disk, then retire the rows whose shadow entry was
never confirmed (delete their options, parameters and rows).  The
shadow tables are dropped at the end. -/
def check_db_report_formats (t : Int) (ds : List Descriptor)
    (db : FeedDB) : FeedDB :=
  let shF := db.formats.filter (fun r => r.owner == none)
  let shP := db.params.filter (fun q =>
    db.formats.any (fun r => r.owner == none && r.uuid == q.rf))
  let st := ds.foldl (fun s d => check_report_format t d s) (db, shF, shP)
  let retired := st.2.1.map FRow.uuid
  { formats := st.1.formats.filter (fun r => !retired.contains r.uuid)
    params := st.1.params.filter (fun q => !retired.contains q.rf)
    options := st.1.options.filter (fun o => !retired.contains o.rf) }

/-- The stored tracked fields a reconciled predefined row has for
descriptor `d`: owner NULL, the stripped descriptor fields, empty
signature, trust Yes, active flags. -/
def targetFor (d : Descriptor) (r : FRow) : Prop :=
  r.owner = none ∧ r.name = gStrstrip d.name ∧
    r.summary = gStrstrip d.summary ∧
    r.description = gStrstrip d.description ∧
    r.extension = gStrstrip d.extension ∧
    r.content_type = gStrstrip d.content_type ∧ r.signature = "" ∧
    r.trust = Trust.yes.code ∧ r.flags = FLAG_ACTIVE

/-- The parameter row the reconciler stores for descriptor parameter
`p` of format `u`. -/
def paramTarget (u : String) (p : DParam) : PRow :=
  { rf := u, name := gStrstrip p.name, ptype := p.ptype
    value := gStrstrip p.value, type_min := p.min, type_max := p.max
    fallback := gStrstrip p.fallback }

/-- The stored state agrees with the descriptor set: each descriptor
has its row, every row bearing a descriptor uuid carries exactly the
reconciled tracked fields, every predefined row is covered by a
descriptor, and each format's parameter rows are exactly the
descriptor's parameters (whose stripped names are distinct).  This is
the state any reconciliation run leaves behind. -/
structure Synced (ds : List Descriptor) (db : FeedDB) : Prop where
  dsNodup : (ds.map Descriptor.uuid).Nodup
  hasRow : ∀ d ∈ ds, d.uuid ∈ db.formats.map FRow.uuid
  rowTarget : ∀ d ∈ ds, ∀ r ∈ db.formats, r.uuid = d.uuid → targetFor d r
  predefKnown : ∀ r ∈ db.formats, r.owner = none →
    r.uuid ∈ ds.map Descriptor.uuid
  paramsMatch : ∀ d ∈ ds,
    db.params.filter (fun q => q.rf == d.uuid) =
      d.params.map (paramTarget d.uuid)
  namesNodup : ∀ d ∈ ds,
    (d.params.map (fun p => gStrstrip p.name)).Nodup

/-- Mapping a function that fixes every member is the identity. -/
theorem map_id_of_mem {α : Type} {f : α → α} :
    ∀ {l : List α}, (∀ x ∈ l, f x = x) → l.map f = l := by
  intro l
  induction l with
  | nil => intro _; rfl
  | cons a t ih =>
    intro h
    rw [List.map_cons, h a (List.mem_cons_self a t),
      ih (fun x hx => h x (List.mem_cons_of_mem a hx))]

/-- SQL `!=` never distinguishes a value from itself. -/
theorem sqlNeqOpt_self (a : Option Int) : sqlNeqOpt a a = false := by
  cases a <;> simp [sqlNeqOpt]

/-- A parameter row never differs from itself. -/
theorem paramDiff_self (q : PRow) : paramDiff q q = false := by
  simp [paramDiff, sqlNeqOpt_self]

/-- Two rows carrying the reconciled tracked fields of the same
descriptor do not differ in any tracked field. -/
theorem trackedDiff_of_targets {d : Descriptor} {r c : FRow}
    (hr : targetFor d r) (hc : targetFor d c) : trackedDiff r c = false := by
  obtain ⟨h1, h2, h3, h4, h5, h6, _, h8, h9⟩ := hr
  obtain ⟨g1, g2, g3, g4, g5, g6, _, g8, g9⟩ := hc
  simp [trackedDiff, h1, h2, h3, h4, h5, h6, h8, h9,
    g1, g2, g3, g4, g5, g6, g8, g9, sqlNeqOpt_self]

/-- From the parameter-table characterization: the unique live row of
format `u` named after descriptor parameter `p` is `paramTarget u p`. -/
theorem param_row_eq {u : String} {ps : List DParam} {dbp : List PRow}
    (hmatch : dbp.filter (fun q => q.rf == u) = ps.map (paramTarget u))
    (hnodup : (ps.map (fun p => gStrstrip p.name)).Nodup)
    {p : DParam} (hp : p ∈ ps) {q : PRow} (hq : q ∈ dbp)
    (hrf : q.rf = u) (hname : q.name = gStrstrip p.name) :
    q = paramTarget u p := by
  have hqf : q ∈ dbp.filter (fun q => q.rf == u) := by
    rw [List.mem_filter]
    exact ⟨hq, by simp [hrf]⟩
  rw [hmatch] at hqf
  obtain ⟨p2, hp2, hq2⟩ := List.mem_map.mp hqf
  have hn2 : gStrstrip p2.name = gStrstrip p.name := by
    have : (paramTarget u p2).name = gStrstrip p2.name := rfl
    rw [hq2] at this
    exact this ▸ hname ▸ rfl
  have : p2 = p :=
    List.inj_on_of_nodup_map hnodup hp2 hp hn2
  rw [← hq2, this]

/-- From the parameter-table characterization: the target row of every
descriptor parameter is present. -/
theorem param_row_mem {u : String} {ps : List DParam} {dbp : List PRow}
    (hmatch : dbp.filter (fun q => q.rf == u) = ps.map (paramTarget u))
    {p : DParam} (hp : p ∈ ps) : paramTarget u p ∈ dbp := by
  have : paramTarget u p ∈ ps.map (paramTarget u) :=
    List.mem_map.mpr ⟨p, hp, rfl⟩
  rw [← hmatch] at this
  exact (List.mem_filter.mp this).1

/-- Processing the parameters of a descriptor whose parameters all
already match the stored rows: the tables are unchanged (up to the
rewritten option rows), the processed shadow rows are consumed, and the
modification flag is not raised. -/
theorem inner_fold_matching (u : String) :
    ∀ (ps : List DParam) (db : FeedDB) (shP : List PRow) (flag : Bool),
      (∀ p ∈ ps, paramTarget u p ∈ db.params) →
      (∀ p ∈ ps, ∀ q ∈ db.params, q.rf = u → q.name = gStrstrip p.name →
        q = paramTarget u p) →
      (∀ q ∈ db.params, ∀ c ∈ shP, q.rf = c.rf → q.name = c.name →
        paramDiff q c = false) →
      ∃ os, ps.foldl (fun s p => check_param_step u p s) (db, shP, flag) =
        ({ db with options := os },
         shP.filter (fun c =>
           !(c.rf == u &&
             (ps.map (fun p => gStrstrip p.name)).contains c.name)),
         flag) := by
  intro ps
  induction ps with
  | nil =>
    intro db shP flag _ _ _
    refine ⟨db.options, ?_⟩
    rw [List.foldl_nil]
    refine Prod.ext rfl (Prod.ext ?_ rfl)
    simp
  | cons p rest ih =>
    intro db shP flag hex hupd hpair
    rw [List.foldl_cons]
    have htgt := hex p (List.mem_cons_self p rest)
    have hany : db.params.any
        (fun q => q.rf == u && q.name == gStrstrip p.name) = true := by
      rw [List.any_eq_true]
      exact ⟨paramTarget u p, htgt, by simp [paramTarget]⟩
    have hps1 : db.params.map (fun q =>
        if q.rf == u && q.name == gStrstrip p.name then
          { q with ptype := p.ptype, value := gStrstrip p.value
                   type_min := p.min, type_max := p.max
                   fallback := gStrstrip p.fallback }
        else q) = db.params := by
      apply map_id_of_mem
      intro q hq
      by_cases hc : (q.rf == u && q.name == gStrstrip p.name) = true
      · rw [if_pos hc]
        simp only [Bool.and_eq_true, beq_iff_eq] at hc
        have hqt := hupd p (List.mem_cons_self p rest) q hq hc.1 hc.2
        subst hqt
        rfl
      · rw [if_neg hc]
    have hflag : (db.params.any (fun q => shP.any (fun c =>
        q.name == gStrstrip p.name && c.name == gStrstrip p.name &&
          q.rf == c.rf && paramDiff q c))) = false := by
      rw [List.any_eq_false]
      intro q hq
      rw [Bool.not_eq_true, List.any_eq_false]
      intro c hc
      by_cases h1 : q.name = gStrstrip p.name
      · by_cases h2 : c.name = gStrstrip p.name
        · by_cases h3 : q.rf = c.rf
          · have := hpair q hq c hc h3 (h1.trans h2.symm)
            simp [h1, h2, h3, this]
          · simp [h3]
        · simp [h2]
      · simp [h1]
    obtain ⟨os2, hstep⟩ : ∃ os2, check_param_step u p (db, shP, flag) =
        ({ db with options := os2 },
         shP.filter (fun c => !(c.rf == u && c.name == gStrstrip p.name)),
         flag) := by
      refine ⟨(check_param_step u p (db, shP, flag)).1.options, ?_⟩
      unfold check_param_step
      simp only [hany, if_true]
      rw [hps1]
      simp only [hflag, Bool.or_false]
    rw [hstep]
    obtain ⟨os, hos⟩ := ih { db with options := os2 }
      (shP.filter (fun c => !(c.rf == u && c.name == gStrstrip p.name))) flag
      (fun p' hp' => hex p' (List.mem_cons_of_mem p hp'))
      (fun p' hp' => hupd p' (List.mem_cons_of_mem p hp'))
      (fun q hq c hc => hpair q hq c (List.mem_of_mem_filter hc))
    refine ⟨os, ?_⟩
    rw [hos]
    refine Prod.ext rfl (Prod.ext ?_ rfl)
    show (shP.filter _).filter _ = shP.filter _
    rw [List.filter_filter]
    apply List.filter_congr
    intro c _
    rw [List.map_cons, List.contains_cons]
    cases h1 : c.rf == u <;> cases h2 : c.name == gStrstrip p.name <;>
      cases h3 : (List.map (fun p => gStrstrip p.name) rest).contains c.name <;>
        simp [h1, h2, h3]

/-- Applied to a row already carrying the reconciled tracked fields,
the UPDATE of `check_report_format_create` only rewrites the signature
(to the empty string it already holds) and the trust time. -/
theorem create_update_of_target {t : Int} {d : Descriptor} {r : FRow}
    (h : targetFor d r) :
    ({ r with owner := none, name := gStrstrip d.name
              summary := gStrstrip d.summary
              description := gStrstrip d.description
              extension := gStrstrip d.extension
              content_type := gStrstrip d.content_type
              signature := "", trust := Trust.yes.code, trust_time := t
              flags := FLAG_ACTIVE } : FRow) =
      { r with signature := "", trust_time := t } := by
  obtain ⟨h1, h2, h3, h4, h5, h6, h7, h8, h9⟩ := h
  cases r
  simp_all

/-- Rewriting signature and trust time preserves the reconciled tracked
fields. -/
theorem targetFor_update {d : Descriptor} {r : FRow} {t : Int}
    (h : targetFor d r) :
    targetFor d ({ r with signature := "", trust_time := t }) := by
  obtain ⟨h1, h2, h3, h4, h5, h6, h7, h8, h9⟩ := h
  exact ⟨h1, h2, h3, h4, h5, h6, rfl, h8, h9⟩

/-- `check_report_format_create` on a matching descriptor: the update
branch runs, rewrites only signature and trust time, and the
modification-time UPDATE matches no row. -/
theorem create_matching (t : Int) (d : Descriptor) (db : FeedDB)
    (shF : List FRow)
    (h1 : d.uuid ∈ db.formats.map FRow.uuid)
    (h2 : ∀ r ∈ db.formats, r.uuid = d.uuid → targetFor d r)
    (h5 : ∀ c ∈ shF, c.uuid = d.uuid → targetFor d c) :
    check_report_format_create t d db shF =
      { db with formats := db.formats.map (fun r =>
          if r.uuid == d.uuid then
            { r with signature := "", trust_time := t }
          else r) } := by
  have hanyF : db.formats.any (fun r => r.uuid == d.uuid) = true := by
    rw [List.any_eq_true]
    obtain ⟨r, hr, hru⟩ := List.mem_map.mp h1
    exact ⟨r, hr, by simp [hru]⟩
  have htarget1 : ∀ r1 ∈ db.formats.map (fun r =>
      if r.uuid == d.uuid then { r with signature := "", trust_time := t }
      else r), r1.uuid = d.uuid → targetFor d r1 := by
    intro r1 hr1 hu1
    obtain ⟨r, hr, hfr⟩ := List.mem_map.mp hr1
    by_cases hu : r.uuid = d.uuid
    · rw [if_pos (by simp [hu])] at hfr
      rw [← hfr]
      exact targetFor_update (h2 r hr hu)
    · rw [if_neg (by simp [hu])] at hfr
      rw [← hfr] at hu1
      exact absurd hu1 hu
  unfold check_report_format_create
  simp only [hanyF, if_true]
  congr 1
  have hm1 : db.formats.map (fun r =>
      if r.uuid == d.uuid then
        { r with owner := none, name := gStrstrip d.name
                 summary := gStrstrip d.summary
                 description := gStrstrip d.description
                 extension := gStrstrip d.extension
                 content_type := gStrstrip d.content_type
                 signature := "", trust := Trust.yes.code, trust_time := t
                 flags := FLAG_ACTIVE }
      else r) = db.formats.map (fun r =>
      if r.uuid == d.uuid then { r with signature := "", trust_time := t }
      else r) := by
    apply List.map_congr_left
    intro r hr
    by_cases hu : r.uuid = d.uuid
    · rw [if_pos (by simp [hu]), if_pos (by simp [hu])]
      exact create_update_of_target (h2 r hr hu)
    · rw [if_neg (by simp [hu]), if_neg (by simp [hu])]
  rw [hm1]
  apply map_id_of_mem
  intro r1 hr1
  by_cases hu1 : r1.uuid = d.uuid
  · have htr1 := htarget1 r1 hr1 hu1
    have hany2 : shF.any
        (fun c => c.uuid == r1.uuid && trackedDiff r1 c) = false := by
      rw [List.any_eq_false]
      intro c hc
      by_cases hcu : c.uuid = r1.uuid
      · have htc := h5 c hc (hcu.trans hu1)
        simp [trackedDiff_of_targets htr1 htc]
      · simp [hcu]
    rw [hany2]
    simp
  · rw [if_neg (by simp [hu1])]

/-- One `check_report_format` call on a descriptor that already matches
the stored state: the row keeps its modification time (only signature
and trust time are rewritten), the parameter table is unchanged, and
the shadow rows of this format are consumed. -/
theorem check_step_matching (t : Int) (d : Descriptor) (db : FeedDB)
    (shF : List FRow) (shP : List PRow)
    (h1 : d.uuid ∈ db.formats.map FRow.uuid)
    (h2 : ∀ r ∈ db.formats, r.uuid = d.uuid → targetFor d r)
    (h5 : ∀ c ∈ shF, c.uuid = d.uuid → targetFor d c)
    (hex : ∀ p ∈ d.params, paramTarget d.uuid p ∈ db.params)
    (hupd : ∀ p ∈ d.params, ∀ q ∈ db.params, q.rf = d.uuid →
      q.name = gStrstrip p.name → q = paramTarget d.uuid p)
    (hpair : ∀ q ∈ db.params, ∀ c ∈ shP, q.rf = c.rf → q.name = c.name →
      paramDiff q c = false)
    (hshPd : ∀ c ∈ shP, c.rf = d.uuid →
      c.name ∈ d.params.map (fun p => gStrstrip p.name)) :
    ∃ os, check_report_format t d (db, shF, shP) =
      ({ formats := db.formats.map (fun r =>
           if r.uuid == d.uuid then
             { r with signature := "", trust_time := t }
           else r),
         params := db.params, options := os },
       shF.filter (fun c => !(c.uuid == d.uuid)),
       shP.filter (fun c => !(c.rf == d.uuid))) := by
  have hcreate := create_matching t d db shF h1 h2 h5
  obtain ⟨os, hinner⟩ := inner_fold_matching d.uuid d.params
    { db with formats := db.formats.map (fun r =>
        if r.uuid == d.uuid then { r with signature := "", trust_time := t }
        else r) }
    shP false hex hupd hpair
  have hstale : (shP.filter (fun c =>
      !(c.rf == d.uuid &&
        (d.params.map (fun p => gStrstrip p.name)).contains c.name))).any
      (fun c => c.rf == d.uuid) = false := by
    rw [List.any_eq_false]
    intro c hc
    obtain ⟨hcm, hcp⟩ := List.mem_filter.mp hc
    by_cases hcu : c.rf = d.uuid
    · have hctn : (d.params.map (fun p => gStrstrip p.name)).contains
          c.name = true := List.elem_eq_true_of_mem (hshPd c hcm hcu)
      have hbe : (c.rf == d.uuid) = true := by simp [hcu]
      rw [hbe, hctn] at hcp
      simp at hcp
    · simp [hcu]
  have hshP2 : shP.filter (fun c =>
      !(c.rf == d.uuid &&
        (d.params.map (fun p => gStrstrip p.name)).contains c.name)) =
      shP.filter (fun c => !(c.rf == d.uuid)) := by
    apply List.filter_congr
    intro c hcm
    by_cases hcu : c.rf = d.uuid
    · have hctn : (d.params.map (fun p => gStrstrip p.name)).contains
          c.name = true := List.elem_eq_true_of_mem (hshPd c hcm hcu)
      have hbe : (c.rf == d.uuid) = true := by simp [hcu]
      rw [hbe, hctn]
      rfl
    · simp [hcu]
  refine ⟨os, ?_⟩
  unfold check_report_format
  rw [hcreate]
  simp only [hinner, hstale]
  rw [hshP2]
  simp

/-- One `check_param_step` call for a parameter whose stored row matches
an older descriptor version `pOld`, processed with a new default value
`f2`: the update branch rewrites only the fallback, the comparison with
the still-present shadow row raises the modification flag, and the
shadow row is consumed. -/
theorem check_param_step_changed (u : String) (pOld : DParam) (f2 : String)
    (hne : gStrstrip f2 ≠ gStrstrip pOld.fallback)
    (db : FeedDB) (shP : List PRow) (flag : Bool)
    (hex : paramTarget u pOld ∈ db.params)
    (hupd : ∀ q ∈ db.params, q.rf = u → q.name = gStrstrip pOld.name →
      q = paramTarget u pOld)
    (hsh : paramTarget u pOld ∈ shP) :
    ∃ os, check_param_step u { pOld with fallback := f2 } (db, shP, flag) =
      ({ db with
         params := db.params.map (fun q =>
           if q.rf == u && q.name == gStrstrip pOld.name then
             { q with fallback := gStrstrip f2 }
           else q),
         options := os },
       shP.filter (fun c => !(c.rf == u && c.name == gStrstrip pOld.name)),
       true) := by
  have hany : db.params.any
      (fun q => q.rf == u && q.name == gStrstrip pOld.name) = true := by
    rw [List.any_eq_true]
    exact ⟨paramTarget u pOld, hex, by simp [paramTarget]⟩
  have hps1 : db.params.map (fun q =>
      if q.rf == u && q.name == gStrstrip pOld.name then
        { q with ptype := pOld.ptype, value := gStrstrip pOld.value
                 type_min := pOld.min, type_max := pOld.max
                 fallback := gStrstrip f2 }
      else q) = db.params.map (fun q =>
      if q.rf == u && q.name == gStrstrip pOld.name then
        { q with fallback := gStrstrip f2 }
      else q) := by
    apply List.map_congr_left
    intro q hq
    by_cases hc : (q.rf == u && q.name == gStrstrip pOld.name) = true
    · rw [if_pos hc, if_pos hc]
      simp only [Bool.and_eq_true, beq_iff_eq] at hc
      have hqt := hupd q hq hc.1 hc.2
      subst hqt
      rfl
    · rw [if_neg hc, if_neg hc]
  have hflagged : (db.params.map (fun q =>
      if q.rf == u && q.name == gStrstrip pOld.name then
        { q with fallback := gStrstrip f2 }
      else q)).any (fun q => shP.any (fun c =>
        q.name == gStrstrip pOld.name && c.name == gStrstrip pOld.name &&
          q.rf == c.rf && paramDiff q c)) = true := by
    rw [List.any_eq_true]
    refine ⟨{ paramTarget u pOld with fallback := gStrstrip f2 }, ?_, ?_⟩
    · refine List.mem_map.mpr ⟨paramTarget u pOld, hex, ?_⟩
      rw [if_pos (by simp [paramTarget])]
    · rw [List.any_eq_true]
      refine ⟨paramTarget u pOld, hsh, ?_⟩
      simp [paramTarget, paramDiff, sqlNeqOpt_self, hne]
  refine ⟨(check_param_step u { pOld with fallback := f2 }
    (db, shP, flag)).1.options, ?_⟩
  unfold check_param_step
  simp only [hany, if_true]
  rw [hps1]
  simp only [hflagged, Bool.or_true]

/-- One `check_report_format` call on a descriptor matching the stored
state except that one parameter's default (fallback) value changed to
`f2`: the format's signature is cleared, its trust time refreshed and —
because the comparison with the shadow row raises the modification flag
— its modification time set to `t`; the parameter row gets the new
stripped fallback; the shadow rows of this format are consumed. -/
theorem check_step_changed (t : Int) (d : Descriptor) (db : FeedDB)
    (shF : List FRow) (shP : List PRow)
    (ppre ppost : List DParam) (pOld : DParam) (f2 : String)
    (hdp : d.params = ppre ++ { pOld with fallback := f2 } :: ppost)
    (hne : gStrstrip f2 ≠ gStrstrip pOld.fallback)
    (h1 : d.uuid ∈ db.formats.map FRow.uuid)
    (h2 : ∀ r ∈ db.formats, r.uuid = d.uuid → targetFor d r)
    (h5 : ∀ c ∈ shF, c.uuid = d.uuid → targetFor d c)
    (hex : ∀ p ∈ ppre ++ ppost, paramTarget d.uuid p ∈ db.params)
    (hupd : ∀ p ∈ ppre ++ ppost, ∀ q ∈ db.params, q.rf = d.uuid →
      q.name = gStrstrip p.name → q = paramTarget d.uuid p)
    (hexK : paramTarget d.uuid pOld ∈ db.params)
    (hupdK : ∀ q ∈ db.params, q.rf = d.uuid →
      q.name = gStrstrip pOld.name → q = paramTarget d.uuid pOld)
    (hpair : ∀ q ∈ db.params, ∀ c ∈ shP, q.rf = c.rf → q.name = c.name →
      paramDiff q c = false)
    (hshK : paramTarget d.uuid pOld ∈ shP)
    (hshPd : ∀ c ∈ shP, c.rf = d.uuid →
      c.name ∈ d.params.map (fun p => gStrstrip p.name))
    (hnames : (d.params.map (fun p => gStrstrip p.name)).Nodup) :
    ∃ os, check_report_format t d (db, shF, shP) =
      ({ formats := db.formats.map (fun r =>
           if r.uuid == d.uuid then
             { r with signature := "", trust_time := t
                      modification_time := t }
           else r),
         params := db.params.map (fun q =>
           if q.rf == d.uuid && q.name == gStrstrip pOld.name then
             { q with fallback := gStrstrip f2 }
           else q),
         options := os },
       shF.filter (fun c => !(c.uuid == d.uuid)),
       shP.filter (fun c => !(c.rf == d.uuid))) := by
  have hmapdp : d.params.map (fun p => gStrstrip p.name) =
      ppre.map (fun p => gStrstrip p.name) ++ gStrstrip pOld.name ::
        ppost.map (fun p => gStrstrip p.name) := by
    rw [hdp, List.map_append, List.map_cons]
  rw [hmapdp] at hnames
  have hKnotin := (List.nodup_cons.mp (List.nodup_middle.mp hnames)).1
  have hKpre : gStrstrip pOld.name ∉
      ppre.map (fun p => gStrstrip p.name) := fun h =>
    hKnotin (List.mem_append_left _ h)
  have hKpost : gStrstrip pOld.name ∉
      ppost.map (fun p => gStrstrip p.name) := fun h =>
    hKnotin (List.mem_append_right _ h)
  have hKpreb : ((ppre.map (fun p => gStrstrip p.name)).contains
      (gStrstrip pOld.name)) = false := by
    cases hc : (ppre.map (fun p => gStrstrip p.name)).contains
        (gStrstrip pOld.name)
    · rfl
    · exact absurd (List.mem_of_elem_eq_true hc) hKpre
  have hpostK : ∀ p ∈ ppost, gStrstrip p.name ≠ gStrstrip pOld.name := by
    intro p hp h
    exact hKpost (h ▸ List.mem_map_of_mem _ hp)
  have hcreate := create_matching t d db shF h1 h2 h5
  obtain ⟨os1, hpre⟩ := inner_fold_matching d.uuid ppre
    { db with formats := db.formats.map (fun r =>
        if r.uuid == d.uuid then { r with signature := "", trust_time := t }
        else r) }
    shP false
    (fun p hp => hex p (List.mem_append_left _ hp))
    (fun p hp => hupd p (List.mem_append_left _ hp))
    hpair
  obtain ⟨os2, hk⟩ := check_param_step_changed d.uuid pOld f2 hne
    { ({ db with formats := db.formats.map (fun r =>
          if r.uuid == d.uuid then
            { r with signature := "", trust_time := t }
          else r) } : FeedDB) with options := os1 }
    (shP.filter (fun c =>
      !(c.rf == d.uuid &&
        (ppre.map (fun p => gStrstrip p.name)).contains c.name)))
    false
    hexK hupdK
    (by
      rw [List.mem_filter]
      refine ⟨hshK, ?_⟩
      simp only [paramTarget]
      rw [hKpreb]
      simp)
  obtain ⟨os3, hpost⟩ := inner_fold_matching d.uuid ppost
    { ({ ({ db with formats := db.formats.map (fun r =>
            if r.uuid == d.uuid then
              { r with signature := "", trust_time := t }
            else r) } : FeedDB) with options := os1 } : FeedDB) with
      params := db.params.map (fun q =>
        if q.rf == d.uuid && q.name == gStrstrip pOld.name then
          { q with fallback := gStrstrip f2 }
        else q),
      options := os2 }
    ((shP.filter (fun c =>
      !(c.rf == d.uuid &&
        (ppre.map (fun p => gStrstrip p.name)).contains c.name))).filter
      (fun c => !(c.rf == d.uuid && c.name == gStrstrip pOld.name)))
    true
    (by
      intro p hp
      have hmem := hex p (List.mem_append_right _ hp)
      refine List.mem_map.mpr ⟨paramTarget d.uuid p, hmem, ?_⟩
      rw [if_neg]
      simp only [Bool.and_eq_true, beq_iff_eq, paramTarget, not_and]
      intro _ hn
      exact hpostK p hp hn)
    (by
      intro p hp q2 hq2 hrf2 hn2
      obtain ⟨q, hq, hq2eq⟩ := List.mem_map.mp hq2
      by_cases hc : (q.rf == d.uuid && q.name == gStrstrip pOld.name) = true
      · rw [if_pos hc] at hq2eq
        simp only [Bool.and_eq_true, beq_iff_eq] at hc
        have : q2.name = q.name := by rw [← hq2eq]
        rw [hn2, hc.2] at this
        exact absurd this (hpostK p hp)
      · rw [if_neg hc] at hq2eq
        rw [← hq2eq] at hrf2 hn2 ⊢
        exact hupd p (List.mem_append_right _ hp) q hq hrf2 hn2)
    (by
      intro q2 hq2 c hc hrf2 hn2
      obtain ⟨q, hq, hq2eq⟩ := List.mem_map.mp hq2
      obtain ⟨hc1, hcB⟩ := List.mem_filter.mp hc
      obtain ⟨hcm, _⟩ := List.mem_filter.mp hc1
      by_cases hcnd : (q.rf == d.uuid && q.name == gStrstrip pOld.name) = true
      · rw [if_pos hcnd] at hq2eq
        simp only [Bool.and_eq_true, beq_iff_eq] at hcnd
        have hcrf : c.rf = d.uuid := by
          rw [← hrf2, ← hq2eq]
          exact hcnd.1
        have hcn : c.name = gStrstrip pOld.name := by
          rw [← hn2, ← hq2eq]
          exact hcnd.2
        rw [hcrf, hcn] at hcB
        simp at hcB
      · rw [if_neg hcnd] at hq2eq
        rw [← hq2eq] at hrf2 hn2 ⊢
        exact hpair q hq c hcm hrf2 hn2)
  have hstale : (((shP.filter (fun c =>
      !(c.rf == d.uuid &&
        (ppre.map (fun p => gStrstrip p.name)).contains c.name))).filter
      (fun c => !(c.rf == d.uuid && c.name == gStrstrip pOld.name))).filter
      (fun c => !(c.rf == d.uuid &&
        (ppost.map (fun p => gStrstrip p.name)).contains c.name))).any
      (fun c => c.rf == d.uuid) = false := by
    rw [List.any_eq_false]
    intro c hc
    obtain ⟨hc2, hcC⟩ := List.mem_filter.mp hc
    obtain ⟨hc1, hcB⟩ := List.mem_filter.mp hc2
    obtain ⟨hcm, hcA⟩ := List.mem_filter.mp hc1
    by_cases hcu : c.rf = d.uuid
    · have hnm := hshPd c hcm hcu
      rw [hmapdp] at hnm
      rcases List.mem_append.mp hnm with hl | hr
    
      · have : ((ppre.map (fun p => gStrstrip p.name)).contains c.name) =
            true := List.elem_eq_true_of_mem hl
        rw [hcu] at hcA
        rw [this] at hcA
        simp at hcA
      · rcases List.mem_cons.mp hr with he | hpost2
        · rw [hcu, he] at hcB
          simp at hcB
        · have : ((ppost.map (fun p => gStrstrip p.name)).contains c.name) =
              true := List.elem_eq_true_of_mem hpost2
          rw [hcu] at hcC
          rw [this] at hcC
          simp at hcC
    · simp [hcu]
  have hshPfinal : ((shP.filter (fun c =>
      !(c.rf == d.uuid &&
        (ppre.map (fun p => gStrstrip p.name)).contains c.name))).filter
      (fun c => !(c.rf == d.uuid && c.name == gStrstrip pOld.name))).filter
      (fun c => !(c.rf == d.uuid &&
        (ppost.map (fun p => gStrstrip p.name)).contains c.name)) =
      shP.filter (fun c => !(c.rf == d.uuid)) := by
    rw [List.filter_filter, List.filter_filter]
    apply List.filter_congr
    intro c hcm
    by_cases hcu : c.rf = d.uuid
    · have hnm := hshPd c hcm hcu
      rw [hmapdp] at hnm
      have hcub : (c.rf == d.uuid) = true := by simp [hcu]
      rcases List.mem_append.mp hnm with hl | hr
      · have hct : ((ppre.map (fun p => gStrstrip p.name)).contains c.name) =
            true := List.elem_eq_true_of_mem hl
        rw [hcub, hct]
        simp
      · rcases List.mem_cons.mp hr with he | hpost2
        · have : (c.name == gStrstrip pOld.name) = true := by simp [he]
          rw [hcub, this]
          simp
        · have hct : ((ppost.map (fun p => gStrstrip p.name)).contains
              c.name) = true := List.elem_eq_true_of_mem hpost2
          rw [hcub, hct]
          simp
    · have hb : (c.rf == d.uuid) = false := by simp [hcu]
      simp [hb]
  refine ⟨os3, ?_⟩
  unfold check_report_format
  rw [hcreate, hdp]
  simp only [List.foldl_append, List.foldl_cons]
  simp only [hpre]
  simp only [hk]
  simp only [hpost, hstale]
  rw [hshPfinal]
  simp only [Bool.false_eq_true, if_false, eq_self_iff_true, if_true]
  refine Prod.ext ?_ (Prod.ext ?_ ?_)
  · show FeedDB.mk _ _ _ = FeedDB.mk _ _ _
    simp only [List.map_map]
    congr 1
    apply List.map_congr_left
    intro r hr
    simp only [Function.comp]
    by_cases h : r.uuid = d.uuid <;> simp [h]
  · rfl
  · rfl

/-- Walking a list of descriptors that all match the stored state: no
modification time changes (only signatures are rewritten to the empty
string they already hold and trust times refreshed), the parameter
table is untouched, and exactly the walked formats' shadow rows are
consumed. -/
theorem walk_matching (t : Int) :
    ∀ (rest : List Descriptor) (db : FeedDB) (shF : List FRow)
      (shP : List PRow),
      (∀ d ∈ rest, d.uuid ∈ db.formats.map FRow.uuid) →
      (∀ d ∈ rest, ∀ r ∈ db.formats, r.uuid = d.uuid → targetFor d r) →
      (∀ c ∈ shF, ∀ d ∈ rest, c.uuid = d.uuid → targetFor d c) →
      (∀ d ∈ rest, ∀ p ∈ d.params, paramTarget d.uuid p ∈ db.params) →
      (∀ d ∈ rest, ∀ p ∈ d.params, ∀ q ∈ db.params, q.rf = d.uuid →
        q.name = gStrstrip p.name → q = paramTarget d.uuid p) →
      (∀ q ∈ db.params, ∀ c ∈ shP, q.rf = c.rf → q.name = c.name →
        paramDiff q c = false) →
      (∀ c ∈ shP, ∀ d ∈ rest, c.rf = d.uuid →
        c.name ∈ d.params.map (fun p => gStrstrip p.name)) →
      ∃ os, rest.foldl (fun s d => check_report_format t d s)
          (db, shF, shP) =
        ({ formats := db.formats.map (fun r =>
             if (rest.map Descriptor.uuid).contains r.uuid then
               { r with signature := "", trust_time := t }
             else r),
           params := db.params, options := os },
         shF.filter (fun c =>
           !(rest.map Descriptor.uuid).contains c.uuid),
         shP.filter (fun c =>
           !(rest.map Descriptor.uuid).contains c.rf)) := by
  intro rest
  induction rest with
  | nil =>
    intro db shF shP _ _ _ _ _ _ _
    refine ⟨db.options, ?_⟩
    rw [List.foldl_nil]
    refine Prod.ext ?_ (Prod.ext ?_ ?_) <;> simp
  | cons d rest ih =>
    intro db shF shP H1 H2 H5 Hex Hupd Hpair HshPd
    rw [List.foldl_cons]
    obtain ⟨os1, hstep⟩ := check_step_matching t d db shF shP
      (H1 d (List.mem_cons_self d rest))
      (H2 d (List.mem_cons_self d rest))
      (fun c hc => H5 c hc d (List.mem_cons_self d rest))
      (Hex d (List.mem_cons_self d rest))
      (Hupd d (List.mem_cons_self d rest))
      Hpair
      (fun c hc => HshPd c hc d (List.mem_cons_self d rest))
    rw [hstep]
    have huuidmap : ∀ r : FRow,
        ((if r.uuid == d.uuid then
            { r with signature := "", trust_time := t } else r) : FRow).uuid
          = r.uuid := by
      intro r
      by_cases h : r.uuid = d.uuid <;> simp [h]
    obtain ⟨os, hos⟩ := ih
      { formats := db.formats.map (fun r =>
          if r.uuid == d.uuid then
            { r with signature := "", trust_time := t }
          else r),
        params := db.params, options := os1 }
      (shF.filter (fun c => !(c.uuid == d.uuid)))
      (shP.filter (fun c => !(c.rf == d.uuid)))
      (by
        intro d' hd'
        have := H1 d' (List.mem_cons_of_mem d hd')
        obtain ⟨r, hr, hru⟩ := List.mem_map.mp this
        refine List.mem_map.mpr ?_
        refine ⟨(if r.uuid == d.uuid then
          { r with signature := "", trust_time := t } else r), ?_, ?_⟩
        · exact List.mem_map_of_mem _ hr
        · rw [huuidmap r, hru])
      (by
        intro d' hd' r1 hr1 hu1
        obtain ⟨r, hr, hfr⟩ := List.mem_map.mp hr1
        have hru : r.uuid = d'.uuid := by
          rw [← huuidmap r, hfr, hu1]
        have htr := H2 d' (List.mem_cons_of_mem d hd') r hr hru
        by_cases h : r.uuid = d.uuid
        · rw [if_pos (by simp [h])] at hfr
          rw [← hfr]
          exact targetFor_update htr
        · rw [if_neg (by simp [h])] at hfr
          rw [← hfr]
          exact htr)
      (fun c hc d' hd' => H5 c (List.mem_of_mem_filter hc) d'
        (List.mem_cons_of_mem d hd'))
      (fun d' hd' => Hex d' (List.mem_cons_of_mem d hd'))
      (fun d' hd' => Hupd d' (List.mem_cons_of_mem d hd'))
      (fun q hq c hc => Hpair q hq c (List.mem_of_mem_filter hc))
      (fun c hc d' hd' => HshPd c (List.mem_of_mem_filter hc) d'
        (List.mem_cons_of_mem d hd'))
    rw [hos]
    refine ⟨os, Prod.ext ?_ (Prod.ext ?_ ?_)⟩
    · show FeedDB.mk _ _ _ = FeedDB.mk _ _ _
      simp only [List.map_map]
      congr 1
      apply List.map_congr_left
      intro r hr
      simp only [Function.comp, List.map_cons, List.contains_cons]
      by_cases h : r.uuid = d.uuid <;>
        by_cases h2 : ((rest.map Descriptor.uuid).contains r.uuid) = true <;>
          simp [h, h2]
    · show (shF.filter _).filter _ = shF.filter _
      rw [List.filter_filter]
      apply List.filter_congr
      intro c _
      rw [List.map_cons, List.contains_cons]
      cases hx : c.uuid == d.uuid <;>
        cases hy : (rest.map Descriptor.uuid).contains c.uuid <;>
          simp [hx, hy]
    · show (shP.filter _).filter _ = shP.filter _
      rw [List.filter_filter]
      apply List.filter_congr
      intro c _
      rw [List.map_cons, List.contains_cons]
      cases hx : c.rf == d.uuid <;>
        cases hy : (rest.map Descriptor.uuid).contains c.rf <;>
          simp [hx, hy]

/-- Membership in the snapshot of predefined parameters: the row is a
live row whose format is one of the descriptors. -/
theorem shP0_mem {ds : List Descriptor} {db : FeedDB} (hs : Synced ds db) :
    ∀ c ∈ db.params.filter (fun q =>
      db.formats.any (fun r => r.owner == none && r.uuid == q.rf)),
      c ∈ db.params ∧ c.rf ∈ ds.map Descriptor.uuid := by
  intro c hc
  obtain ⟨hcm, hcp⟩ := List.mem_filter.mp hc
  refine ⟨hcm, ?_⟩
  rw [List.any_eq_true] at hcp
  obtain ⟨r, hr, hrp⟩ := hcp
  simp only [Bool.and_eq_true, beq_iff_eq] at hrp
  rw [← hrp.2]
  exact hs.predefKnown r hr hrp.1

/-- Under `Synced`, every live/shadow pair with equal name and format
is a pair of equal rows, hence never differs. -/
theorem synced_pair {ds : List Descriptor} {db : FeedDB}
    (hs : Synced ds db) :
    ∀ q ∈ db.params, ∀ c ∈ db.params.filter (fun q =>
      db.formats.any (fun r => r.owner == none && r.uuid == q.rf)),
      q.rf = c.rf → q.name = c.name → paramDiff q c = false := by
  intro q hq c hc hrf hname
  obtain ⟨hcm, hcds⟩ := shP0_mem hs c hc
  obtain ⟨d, hd, hdu⟩ := List.mem_map.mp hcds
  have hcf : c ∈ db.params.filter (fun q => q.rf == d.uuid) := by
    rw [List.mem_filter]
    exact ⟨hcm, by simp [hdu]⟩
  rw [hs.paramsMatch d hd] at hcf
  obtain ⟨p, hp, hcp⟩ := List.mem_map.mp hcf
  have hqeq : q = paramTarget d.uuid p := by
    refine param_row_eq (hs.paramsMatch d hd) (hs.namesNodup d hd) hp hq
      (by rw [hrf, ← hdu]) ?_
    rw [hname, ← hcp]
    rfl
  have hceq : c = paramTarget d.uuid p := hcp.symm
  rw [hqeq, ← hceq]
  exact paramDiff_self c

/-- Under `Synced`, a snapshot row of a walked format is named after
one of that format's descriptor parameters. -/
theorem synced_shPd {ds : List Descriptor} {db : FeedDB}
    (hs : Synced ds db) :
    ∀ c ∈ db.params.filter (fun q =>
      db.formats.any (fun r => r.owner == none && r.uuid == q.rf)),
      ∀ d ∈ ds, c.rf = d.uuid →
        c.name ∈ d.params.map (fun p => gStrstrip p.name) := by
  intro c hc d hd hrf
  obtain ⟨hcm, _⟩ := shP0_mem hs c hc
  have hcf : c ∈ db.params.filter (fun q => q.rf == d.uuid) := by
    rw [List.mem_filter]
    exact ⟨hcm, by simp [hrf]⟩
  rw [hs.paramsMatch d hd] at hcf
  obtain ⟨p, hp, hcp⟩ := List.mem_map.mp hcf
  refine List.mem_map.mpr ⟨p, hp, ?_⟩
  rw [← hcp]
  rfl

/-- A second reconciliation run over a state that already matches the
descriptor set leaves every format's `(uuid, modification_time)` pair
— indeed the whole format list up to signature and trust-time
rewrites — unchanged. -/
theorem reconcile_unchanged (t : Int) (ds : List Descriptor)
    (db : FeedDB) (hs : Synced ds db) :
    (check_db_report_formats t ds db).formats.map
        (fun r => (r.uuid, r.modification_time)) =
      db.formats.map (fun r => (r.uuid, r.modification_time)) := by
  obtain ⟨os, hwalk⟩ := walk_matching t ds db
    (db.formats.filter (fun r => r.owner == none))
    (db.params.filter (fun q =>
      db.formats.any (fun r => r.owner == none && r.uuid == q.rf)))
    hs.hasRow hs.rowTarget
    (fun c hc d hd hcu =>
      hs.rowTarget d hd c (List.mem_of_mem_filter hc) hcu)
    (fun d hd p hp => param_row_mem (hs.paramsMatch d hd) hp)
    (fun d hd p hp q hq =>
      param_row_eq (hs.paramsMatch d hd) (hs.namesNodup d hd) hp hq)
    (synced_pair hs) (synced_shPd hs)
  have hempty : (db.formats.filter (fun r => r.owner == none)).filter
      (fun c => !(ds.map Descriptor.uuid).contains c.uuid) = [] := by
    rw [List.filter_eq_nil_iff]
    intro c hc
    obtain ⟨hcm, hcp⟩ := List.mem_filter.mp hc
    have howner : c.owner = none := by simpa using hcp
    have hcontains : (ds.map Descriptor.uuid).contains c.uuid = true :=
      List.elem_eq_true_of_mem (hs.predefKnown c hcm howner)
    rw [hcontains]
    decide
  unfold check_db_report_formats
  simp only [hwalk, hempty]
  simp only [List.map_nil, List.contains_nil, Bool.not_false,
    List.filter_true]
  rw [List.map_map]
  apply List.map_congr_left
  intro r _
  simp only [Function.comp]
  by_cases h : ((ds.map Descriptor.uuid).contains r.uuid) = true
  · rw [if_pos h]
  · rw [if_neg h]

/-- A reconciliation run over a synced state in which exactly one
descriptor parameter's default (fallback) value was changed on disk:
exactly that descriptor's format gets its modification time set to the
run's time `t`; every other format's modification time is unchanged. -/
theorem reconcile_one_changed (t : Int) (ds : List Descriptor)
    (db : FeedDB) (pre post : List Descriptor) (du : Descriptor)
    (ppre ppost : List DParam) (pOld : DParam) (f2 : String)
    (hs : Synced ds db)
    (hds : ds = pre ++ du :: post)
    (hduP : du.params = ppre ++ pOld :: ppost)
    (hne : gStrstrip f2 ≠ gStrstrip pOld.fallback) :
    (check_db_report_formats t
        (pre ++
          { du with params := ppre ++ { pOld with fallback := f2 } :: ppost }
          :: post) db).formats.map
        (fun r => (r.uuid, r.modification_time)) =
      db.formats.map (fun r =>
        (r.uuid, if r.uuid = du.uuid then t else r.modification_time)) := by
  have hdu : du ∈ ds := by
    rw [hds]
    exact List.mem_append_right _ (List.mem_cons_self du post)
  have hpredu : ∀ d ∈ pre, d ∈ ds := by
    intro d h
    rw [hds]
    exact List.mem_append_left _ h
  have hpostdu : ∀ d ∈ post, d ∈ ds := by
    intro d h
    rw [hds]
    exact List.mem_append_right _ (List.mem_cons_of_mem _ h)
  have hdsmap : ds.map Descriptor.uuid =
      pre.map Descriptor.uuid ++ du.uuid :: post.map Descriptor.uuid := by
    rw [hds, List.map_append, List.map_cons]
  have hnd := hs.dsNodup
  rw [hdsmap] at hnd
  have hUnotin := (List.nodup_cons.mp (List.nodup_middle.mp hnd)).1
  have hUpre : du.uuid ∉ pre.map Descriptor.uuid := fun h =>
    hUnotin (List.mem_append_left _ h)
  have hUpost : du.uuid ∉ post.map Descriptor.uuid := fun h =>
    hUnotin (List.mem_append_right _ h)
  have hUpreb : ((pre.map Descriptor.uuid).contains du.uuid) = false := by
    cases hc : (pre.map Descriptor.uuid).contains du.uuid
    · rfl
    · exact absurd (List.mem_of_elem_eq_true hc) hUpre
  have hpostne : ∀ d ∈ post, d.uuid ≠ du.uuid := by
    intro d hd h
    exact hUpost (h ▸ List.mem_map_of_mem _ hd)
  have hpOldmem : pOld ∈ du.params := by
    rw [hduP]
    exact List.mem_append_right _ (List.mem_cons_self _ _)
  have hsub : ∀ p ∈ ppre ++ ppost, p ∈ du.params := by
    intro p hp
    rw [hduP]
    rcases List.mem_append.mp hp with h | h
    · exact List.mem_append_left _ h
    · exact List.mem_append_right _ (List.mem_cons_of_mem _ h)
  have hnm_eq : du.params.map (fun p => gStrstrip p.name) =
      (ppre ++ { pOld with fallback := f2 } :: ppost).map
        (fun p => gStrstrip p.name) := by
    rw [hduP, List.map_append, List.map_cons, List.map_append,
      List.map_cons]
  have hg1uuid : ∀ r : FRow,
      ((if (pre.map Descriptor.uuid).contains r.uuid then
          { r with signature := "", trust_time := t } else r) : FRow).uuid
        = r.uuid := by
    intro r
    by_cases h : ((pre.map Descriptor.uuid).contains r.uuid) = true
    · rw [if_pos h]
    · rw [if_neg h]
  have hg2uuid : ∀ r : FRow,
      ((if r.uuid == du.uuid then
          { r with signature := "", trust_time := t
                   modification_time := t } else r) : FRow).uuid
        = r.uuid := by
    intro r
    by_cases h : (r.uuid == du.uuid) = true
    · rw [if_pos h]
    · rw [if_neg h]
  have hg3uuid : ∀ r : FRow,
      ((if (post.map Descriptor.uuid).contains r.uuid then
          { r with signature := "", trust_time := t } else r) : FRow).uuid
        = r.uuid := by
    intro r
    by_cases h : ((post.map Descriptor.uuid).contains r.uuid) = true
    · rw [if_pos h]
    · rw [if_neg h]
  have hg1mod : ∀ r : FRow,
      ((if (pre.map Descriptor.uuid).contains r.uuid then
          { r with signature := "", trust_time := t }
        else r) : FRow).modification_time = r.modification_time := by
    intro r
    by_cases h : ((pre.map Descriptor.uuid).contains r.uuid) = true
    · rw [if_pos h]
    · rw [if_neg h]
  have hg3mod : ∀ r : FRow,
      ((if (post.map Descriptor.uuid).contains r.uuid then
          { r with signature := "", trust_time := t }
        else r) : FRow).modification_time = r.modification_time := by
    intro r
    by_cases h : ((post.map Descriptor.uuid).contains r.uuid) = true
    · rw [if_pos h]
    · rw [if_neg h]
  have hg2mod : ∀ r : FRow,
      ((if r.uuid == du.uuid then
          { r with signature := "", trust_time := t
                   modification_time := t }
        else r) : FRow).modification_time =
        (if r.uuid = du.uuid then t else r.modification_time) := by
    intro r
    by_cases h : r.uuid = du.uuid
    · rw [if_pos (by simp [h]), if_pos h]
    · rw [if_neg (by simp [h]), if_neg h]
  obtain ⟨os1, hwalk1⟩ := walk_matching t pre db
    (db.formats.filter (fun r => r.owner == none))
    (db.params.filter (fun q =>
      db.formats.any (fun r => r.owner == none && r.uuid == q.rf)))
    (fun d hd => hs.hasRow d (hpredu d hd))
    (fun d hd => hs.rowTarget d (hpredu d hd))
    (fun c hc d hd hcu =>
      hs.rowTarget d (hpredu d hd) c (List.mem_of_mem_filter hc) hcu)
    (fun d hd p hp => param_row_mem (hs.paramsMatch d (hpredu d hd)) hp)
    (fun d hd p hp q hq =>
      param_row_eq (hs.paramsMatch d (hpredu d hd))
        (hs.namesNodup d (hpredu d hd)) hp hq)
    (synced_pair hs)
    (fun c hc d hd => synced_shPd hs c hc d (hpredu d hd))
  obtain ⟨os2, hstep2⟩ := check_step_changed t
    { du with params := ppre ++ { pOld with fallback := f2 } :: ppost }
    { formats := db.formats.map (fun r =>
        if (pre.map Descriptor.uuid).contains r.uuid then
          { r with signature := "", trust_time := t }
        else r),
      params := db.params, options := os1 }
    ((db.formats.filter (fun r => r.owner == none)).filter
      (fun c => !(pre.map Descriptor.uuid).contains c.uuid))
    ((db.params.filter (fun q =>
        db.formats.any (fun r => r.owner == none && r.uuid == q.rf))).filter
      (fun c => !(pre.map Descriptor.uuid).contains c.rf))
    ppre ppost pOld f2 rfl hne
    (by
      obtain ⟨r0, hr0, hr0u⟩ := List.mem_map.mp (hs.hasRow du hdu)
      refine List.mem_map.mpr
        ⟨(if (pre.map Descriptor.uuid).contains r0.uuid then
            { r0 with signature := "", trust_time := t } else r0), ?_, ?_⟩
      · exact List.mem_map_of_mem _ hr0
      · rw [hg1uuid r0]
        exact hr0u)
    (by
      intro r1 hr1 hu1
      obtain ⟨r0, hr0, hfr⟩ := List.mem_map.mp hr1
      have hru : r0.uuid = du.uuid := by
        rw [← hg1uuid r0, hfr]
        exact hu1
      have htr := hs.rowTarget du hdu r0 hr0 hru
      by_cases h : ((pre.map Descriptor.uuid).contains r0.uuid) = true
      · rw [if_pos h] at hfr
        rw [← hfr]
        exact targetFor_update htr
      · rw [if_neg h] at hfr
        rw [← hfr]
        exact htr)
    (fun c hc hcu =>
      hs.rowTarget du hdu c
        (List.mem_of_mem_filter (List.mem_of_mem_filter hc)) hcu)
    (fun p hp => param_row_mem (hs.paramsMatch du hdu) (hsub p hp))
    (fun p hp q hq =>
      param_row_eq (hs.paramsMatch du hdu) (hs.namesNodup du hdu)
        (hsub p hp) hq)
    (param_row_mem (hs.paramsMatch du hdu) hpOldmem)
    (fun q hq =>
      param_row_eq (hs.paramsMatch du hdu) (hs.namesNodup du hdu)
        hpOldmem hq)
    (fun q hq c hc => synced_pair hs q hq c (List.mem_of_mem_filter hc))
    (by
      rw [List.mem_filter]
      constructor
      · rw [List.mem_filter]
        refine ⟨param_row_mem (hs.paramsMatch du hdu) hpOldmem, ?_⟩
        rw [List.any_eq_true]
        obtain ⟨r0, hr0, hr0u⟩ := List.mem_map.mp (hs.hasRow du hdu)
        refine ⟨r0, hr0, ?_⟩
        have howner : r0.owner = none :=
          (hs.rowTarget du hdu r0 hr0 hr0u).1
        simp [howner, hr0u, paramTarget]
      · simp only [paramTarget]
        rw [hUpreb]
        simp)
    (by
      intro c hc hcu
      have := synced_shPd hs c (List.mem_of_mem_filter hc) du hdu hcu
      exact hnm_eq ▸ this)
    (by
      have := hs.namesNodup du hdu
      rw [hnm_eq] at this
      exact this)
  have hstep2e : check_report_format t
      { du with params := ppre ++ { pOld with fallback := f2 } :: ppost }
      ({ formats := db.formats.map (fun r =>
           if (pre.map Descriptor.uuid).contains r.uuid then
             { r with signature := "", trust_time := t }
           else r),
         params := db.params, options := os1 },
       (db.formats.filter (fun r => r.owner == none)).filter
         (fun c => !(pre.map Descriptor.uuid).contains c.uuid),
       (db.params.filter (fun q =>
           db.formats.any
             (fun r => r.owner == none && r.uuid == q.rf))).filter
         (fun c => !(pre.map Descriptor.uuid).contains c.rf)) =
      ({ formats := (db.formats.map (fun r =>
           if (pre.map Descriptor.uuid).contains r.uuid then
             { r with signature := "", trust_time := t }
           else r)).map (fun r =>
             if r.uuid == du.uuid then
               { r with signature := "", trust_time := t
                        modification_time := t }
             else r),
         params := db.params.map (fun q =>
           if q.rf == du.uuid && q.name == gStrstrip pOld.name then
             { q with fallback := gStrstrip f2 }
           else q),
         options := os2 },
       ((db.formats.filter (fun r => r.owner == none)).filter
         (fun c => !(pre.map Descriptor.uuid).contains c.uuid)).filter
         (fun c => !(c.uuid == du.uuid)),
       ((db.params.filter (fun q =>
           db.formats.any
             (fun r => r.owner == none && r.uuid == q.rf))).filter
         (fun c => !(pre.map Descriptor.uuid).contains c.rf)).filter
         (fun c => !(c.rf == du.uuid))) := hstep2
  obtain ⟨os3, hwalk3⟩ := walk_matching t post
    { formats := (db.formats.map (fun r =>
        if (pre.map Descriptor.uuid).contains r.uuid then
          { r with signature := "", trust_time := t }
        else r)).map (fun r =>
          if r.uuid == du.uuid then
            { r with signature := "", trust_time := t
                     modification_time := t }
          else r),
      params := db.params.map (fun q =>
        if q.rf == du.uuid && q.name == gStrstrip pOld.name then
          { q with fallback := gStrstrip f2 }
        else q),
      options := os2 }
    (((db.formats.filter (fun r => r.owner == none)).filter
      (fun c => !(pre.map Descriptor.uuid).contains c.uuid)).filter
      (fun c => !(c.uuid == du.uuid)))
    (((db.params.filter (fun q =>
        db.formats.any (fun r => r.owner == none && r.uuid == q.rf))).filter
      (fun c => !(pre.map Descriptor.uuid).contains c.rf)).filter
      (fun c => !(c.rf == du.uuid)))
    (by
      intro d hd
      obtain ⟨r0, hr0, hr0u⟩ := List.mem_map.mp (hs.hasRow d (hpostdu d hd))
      refine List.mem_map.mpr
        ⟨_, List.mem_map_of_mem _ (List.mem_map_of_mem _ hr0), ?_⟩
      exact (hg2uuid _).trans ((hg1uuid r0).trans hr0u))
    (by
      intro d hd r2 hr2 hu2
      obtain ⟨r1, hr1, hg2⟩ := List.mem_map.mp hr2
      obtain ⟨r0, hr0, hg1⟩ := List.mem_map.mp hr1
      have hr1u : r1.uuid = r0.uuid := by
        rw [← hg1]
        exact hg1uuid r0
      have hr2u : r2.uuid = r1.uuid := by
        rw [← hg2]
        exact hg2uuid r1
      have hr0u : r0.uuid = d.uuid := by
        rw [← hr1u, ← hr2u]
        exact hu2
      have htr := hs.rowTarget d (hpostdu d hd) r0 hr0 hr0u
      have htr1 : targetFor d r1 := by
        by_cases h : ((pre.map Descriptor.uuid).contains r0.uuid) = true
        · rw [if_pos h] at hg1
          rw [← hg1]
          exact targetFor_update htr
        · rw [if_neg h] at hg1
          rw [← hg1]
          exact htr
      have hne2 : r1.uuid ≠ du.uuid := by
        rw [hr1u, hr0u]
        exact hpostne d hd
      rw [if_neg (by simp [hne2])] at hg2
      rw [← hg2]
      exact htr1)
    (by
      intro c hc d hd hcu
      exact hs.rowTarget d (hpostdu d hd) c
        (List.mem_of_mem_filter
          (List.mem_of_mem_filter (List.mem_of_mem_filter hc))) hcu)
    (by
      intro d hd p hp
      have hmem := param_row_mem (hs.paramsMatch d (hpostdu d hd)) hp
      refine List.mem_map.mpr ⟨paramTarget d.uuid p, hmem, ?_⟩
      rw [if_neg]
      simp only [Bool.and_eq_true, beq_iff_eq, paramTarget, not_and]
      intro h
      exact absurd h (hpostne d hd))
    (by
      intro d hd p hp q2 hq2 hrf2 hn2
      obtain ⟨q, hq, hq2eq⟩ := List.mem_map.mp hq2
      by_cases hcnd : (q.rf == du.uuid &&
          q.name == gStrstrip pOld.name) = true
      · rw [if_pos hcnd] at hq2eq
        simp only [Bool.and_eq_true, beq_iff_eq] at hcnd
        have : q2.rf = q.rf := by rw [← hq2eq]
        rw [hrf2, hcnd.1] at this
        exact absurd this (hpostne d hd)
      · rw [if_neg hcnd] at hq2eq
        rw [← hq2eq] at hrf2 hn2 ⊢
        exact param_row_eq (hs.paramsMatch d (hpostdu d hd))
          (hs.namesNodup d (hpostdu d hd)) hp hq hrf2 hn2)
    (by
      intro q2 hq2 c hc hrf2 hn2
      obtain ⟨q, hq, hq2eq⟩ := List.mem_map.mp hq2
      obtain ⟨hc2, hcB⟩ := List.mem_filter.mp hc
      obtain ⟨hc1, _⟩ := List.mem_filter.mp hc2
      by_cases hcnd : (q.rf == du.uuid &&
          q.name == gStrstrip pOld.name) = true
      · rw [if_pos hcnd] at hq2eq
        simp only [Bool.and_eq_true, beq_iff_eq] at hcnd
        have hcrf : c.rf = du.uuid := by
          rw [← hrf2, ← hq2eq]
          exact hcnd.1
        rw [hcrf] at hcB
        simp at hcB
      · rw [if_neg hcnd] at hq2eq
        rw [← hq2eq] at hrf2 hn2 ⊢
        exact synced_pair hs q hq c hc1 hrf2 hn2)
    (by
      intro c hc d hd hcu
      exact synced_shPd hs c
        (List.mem_of_mem_filter (List.mem_of_mem_filter hc)) d
        (hpostdu d hd) hcu)
  have hempty : ((((db.formats.filter (fun r => r.owner == none)).filter
      (fun c => !(pre.map Descriptor.uuid).contains c.uuid)).filter
      (fun c => !(c.uuid == du.uuid))).filter
      (fun c => !(post.map Descriptor.uuid).contains c.uuid)) = [] := by
    rw [List.filter_eq_nil_iff]
    intro c hc
    obtain ⟨hc2, hcB⟩ := List.mem_filter.mp hc
    obtain ⟨hc1, hcA⟩ := List.mem_filter.mp hc2
    have howner : c.owner = none := by
      simpa using (List.mem_filter.mp hc1).2
    have hin := hs.predefKnown c (List.mem_of_mem_filter hc1) howner
    rw [hdsmap] at hin
    rcases List.mem_append.mp hin with hl | hr
    · have : ((pre.map Descriptor.uuid).contains c.uuid) = true :=
        List.elem_eq_true_of_mem hl
      rw [this] at hcA
      simp at hcA
    · rcases List.mem_cons.mp hr with he | hpost2
      · rw [he] at hcB
        simp at hcB
      · have hct : ((post.map Descriptor.uuid).contains c.uuid) = true :=
          List.elem_eq_true_of_mem hpost2
        rw [hct]
        simp
  unfold check_db_report_formats
  simp only [List.foldl_append, List.foldl_cons]
  simp only [hwalk1]
  simp only [hstep2e]
  simp only [hwalk3]
  rw [hempty]
  simp only [List.map_nil, List.contains_nil, Bool.not_false,
    List.filter_true]
  simp only [List.map_map]
  apply List.map_congr_left
  intro r _
  simp only [Function.comp, hg3uuid, hg2uuid, hg1uuid, hg3mod, hg2mod,
    hg1mod]
  by_cases h2 : (r.uuid == du.uuid) = true
  · rw [if_pos h2]
    have h2p : r.uuid = du.uuid := by simpa using h2
    rw [if_pos h2p]
  · rw [if_neg h2]
    have h2p : ¬r.uuid = du.uuid := by simpa using h2
    rw [if_neg h2p]
    by_cases h1 : ((pre.map Descriptor.uuid).contains r.uuid) = true
    · rw [if_pos h1]
    · rw [if_neg h1]

/-- The reconciled tracked fields form a decidable predicate. -/
instance targetForDecidable (d : Descriptor) (r : FRow) :
    Decidable (targetFor d r) :=
  decidable_of_iff (r.owner = none ∧ r.name = gStrstrip d.name ∧
    r.summary = gStrstrip d.summary ∧
    r.description = gStrstrip d.description ∧
    r.extension = gStrstrip d.extension ∧
    r.content_type = gStrstrip d.content_type ∧ r.signature = "" ∧
    r.trust = Trust.yes.code ∧ r.flags = FLAG_ACTIVE) Iff.rfl

/-- Fixture: a descriptor parameter of a feed report format. -/
def feedParamW : DParam :=
  { name := "p", fallback := "fb", ptype := ParamType.string, min := none
    max := none, opts := none, value := "v" }

/-- Fixture: descriptor of predefined format a, one parameter. -/
def feedDescAW : Descriptor :=
  { uuid := "a", name := "A", summary := "s", description := "d"
    extension := "ext", content_type := "ct", params := [feedParamW] }

/-- Fixture: descriptor of predefined format b, no parameters. -/
def feedDescBW : Descriptor :=
  { uuid := "b", name := "B", summary := "s2", description := "d2"
    extension := "ext", content_type := "ct", params := [] }

/-- Fixture: stored row of format a, reconciled, modification time 10. -/
def feedRowAW : FRow :=
  { uuid := "a", owner := none, name := "A", summary := "s"
    description := "d", extension := "ext", content_type := "ct"
    signature := "", trust := Trust.yes.code, trust_time := 5
    flags := FLAG_ACTIVE, creation_time := 1, modification_time := 10 }

/-- Fixture: stored row of format b, reconciled, modification time 20. -/
def feedRowBW : FRow :=
  { uuid := "b", owner := none, name := "B", summary := "s2"
    description := "d2", extension := "ext", content_type := "ct"
    signature := "", trust := Trust.yes.code, trust_time := 5
    flags := FLAG_ACTIVE, creation_time := 1, modification_time := 20 }

/-- Fixture: the stored parameter row of format a. -/
def feedPRowW : PRow :=
  { rf := "a", name := "p", ptype := ParamType.string, value := "v"
    type_min := none, type_max := none, fallback := "fb" }

/-- Fixture: a database synced with descriptors a and b. -/
def feedDbW : FeedDB :=
  { formats := [feedRowAW, feedRowBW], params := [feedPRowW]
    options := [] }

/-- The fixture database is synced with the fixture descriptor set. -/
theorem feedSyncedW : Synced [feedDescAW, feedDescBW] feedDbW :=
  ⟨by decide, by decide, by decide, by decide, by decide, by decide⟩

/-- C8: over a stored state synced with the descriptor set, (i) running
the feed reconciliation again with the identical descriptor set leaves
every format's `(uuid, modification_time)` pair unchanged, and
(ii) running it with exactly one parameter's default (fallback) value
changed in one descriptor sets exactly that descriptor's format's
modification time to the run time `t` and leaves every other format's
modification time unchanged. -/
theorem c8_feed_reconciliation (t : Int) (ds : List Descriptor)
    (db : FeedDB) (pre post : List Descriptor) (du : Descriptor)
    (ppre ppost : List DParam) (pOld : DParam) (f2 : String)
    (hs : Synced ds db)
    (hds : ds = pre ++ du :: post)
    (hduP : du.params = ppre ++ pOld :: ppost)
    (hne : gStrstrip f2 ≠ gStrstrip pOld.fallback) :
    (check_db_report_formats t ds db).formats.map
        (fun r => (r.uuid, r.modification_time)) =
      db.formats.map (fun r => (r.uuid, r.modification_time)) ∧
    (check_db_report_formats t
        (pre ++
          { du with params := ppre ++ { pOld with fallback := f2 } :: ppost }
          :: post) db).formats.map
        (fun r => (r.uuid, r.modification_time)) =
      db.formats.map (fun r =>
        (r.uuid, if r.uuid = du.uuid then t else r.modification_time)) :=
  ⟨reconcile_unchanged t ds db hs,
   reconcile_one_changed t ds db pre post du ppre ppost pOld f2 hs hds
     hduP hne⟩

/-- Witness for C8 at a concrete synced two-format database: the
identical re-run keeps both modification times, and changing the
fallback of format a's parameter to "fb2" at run time 100 moves exactly
format a's modification time to 100. -/
theorem c8_feed_reconciliation_witness :
    Synced [feedDescAW, feedDescBW] feedDbW ∧
    ((check_db_report_formats 100 [feedDescAW, feedDescBW]
        feedDbW).formats.map (fun r => (r.uuid, r.modification_time)) =
      feedDbW.formats.map (fun r => (r.uuid, r.modification_time)) ∧
    (check_db_report_formats 100
        ([] ++
          { feedDescAW with
            params := [] ++ { feedParamW with fallback := "fb2" } :: [] }
          :: [feedDescBW]) feedDbW).formats.map
        (fun r => (r.uuid, r.modification_time)) =
      feedDbW.formats.map (fun r =>
        (r.uuid,
          if r.uuid = feedDescAW.uuid then 100
          else r.modification_time))) :=
  ⟨feedSyncedW,
   c8_feed_reconciliation 100 [feedDescAW, feedDescBW] feedDbW []
     [feedDescBW] feedDescAW [] [] feedParamW "fb2" feedSyncedW rfl rfl
     (by decide)⟩

end ReportFormats
